import Mathlib

/-!
Verification of the go-quote library (markcheno/go-quote).

Shallow embedding conventions:
* Go `string` is modelled as Lean `String`; all string data in the claims is
  ASCII, where Go's byte-wise operations agree with Lean's `Char`-wise ones.
  Split/contains/case functions are implemented here on `List Char` because
  the corresponding core-library `String` functions do not reduce in the
  kernel; each is a direct transcription of the Go function's semantics.
* Go `float64` is modelled as `ℚ` (exact rational arithmetic).  All values
  exercised by the claims are small decimal fractions, on which Go's float
  operations are exact.  Rational values are constructed with `mkRat` and
  manipulated through their `num`/`den` fields so that everything reduces in
  the kernel.
* Go `time.Time` is modelled two ways, matching how the code uses it: the
  serializers (which only format/parse calendar fields) use a `DateTime`
  record of calendar fields; the exchange adapters (which only call
  `time.Unix` on integer seconds and never format) use the `Int` Unix
  seconds directly.  `time.Unix` is strictly monotone and injective, so
  ordering and equality statements transfer verbatim.
* Fallible code paths (Go panics / non-nil errors) are modelled with
  `Option` / explicit error flags.
-/

/-- Model of Go `strings.Split(s, sep)` for a one-character separator,
    transcribed on `List Char`: `split "" = [""]`, and separators at the ends
    produce empty fields, exactly as in Go. -/
def splitChar (c : Char) : List Char → List (List Char)
  | [] => [[]]
  | ch :: rest =>
    match splitChar c rest with
    | [] => [[ch]]
    | g :: gs => if ch = c then [] :: g :: gs else (ch :: g) :: gs

/-- Numeric value of an ASCII digit character (code points 48–57), `none`
    for anything else. -/
def charDigitVal (c : Char) : Option Nat :=
  if 48 ≤ c.toNat ∧ c.toNat ≤ 57 then some (c.toNat - 48) else none

/-- Whether a character is an ASCII digit. -/
def isDigitCh (c : Char) : Bool := (charDigitVal c).isSome

/-- Two-digit zero-padded decimal rendering, as `fmt` produces for the
    `01`/`02`/`15`/`04` fields of a Go time layout.  Faithful on the field
    ranges `time.Time` guarantees (the value is below 100). -/
def pad2 (n : Nat) : List Char := [Nat.digitChar (n / 10 % 10), Nat.digitChar (n % 10)]

/-- Four-digit zero-padded decimal rendering (the `2006` year field of a Go
    time layout).  Faithful for years up to 9999, which the round-trip
    theorems assume. -/
def pad4 (n : Nat) : List Char :=
  [Nat.digitChar (n / 1000 % 10), Nat.digitChar (n / 100 % 10),
   Nat.digitChar (n / 10 % 10), Nat.digitChar (n % 10)]

/-- Decimal digits of `n`, least significant first, by repeated division;
    the extra fuel argument makes the recursion structural so the kernel can
    evaluate it. -/
def natDigitsRevFuel : Nat → Nat → List Nat
  | 0, _ => []
  | _ + 1, 0 => []
  | fuel + 1, n + 1 => (n + 1) % 10 :: natDigitsRevFuel fuel ((n + 1) / 10)

/-- Decimal digits of `n`, least significant first (`[]` for 0). -/
def natDigitsRev (n : Nat) : List Nat := natDigitsRevFuel n n

/-- Decimal rendering of a natural number, as Go's `strconv`/`fmt` produce
    it (most significant digit first, `"0"` for zero). -/
def natReprChars (n : Nat) : List Char :=
  if n = 0 then ['0'] else (natDigitsRev n).reverse.map Nat.digitChar

/-- Numeric value of a digit string (most significant first); digit validity
    is checked separately. -/
def digitsVal (cs : List Char) : Nat :=
  cs.foldl (fun a c => 10 * a + (charDigitVal c).getD 0) 0

/-- Parse a non-empty all-digit string to a natural number. -/
def parseNatDigits (cs : List Char) : Option Nat :=
  if cs ≠ [] ∧ cs.all isDigitCh then some (digitsVal cs) else none

/-- Byte-wise (here: code-point-wise) lexicographic order on strings, as
    used by Go's `sort.Strings`; agrees with Go on ASCII data. -/
def listLeCh : List Char → List Char → Bool
  | [], _ => true
  | _ :: _, [] => false
  | a :: as, b :: bs =>
    if a.toNat < b.toNat then true
    else if b.toNat < a.toNat then false
    else listLeCh as bs

/-- String order wrapper for `listLeCh`. -/
def goStrLe (a b : String) : Bool := listLeCh a.toList b.toList

/-- Model of Go `strings.Contains` (substring search). -/
def containsSubList (text pat : List Char) : Bool :=
  match text with
  | [] => pat.isEmpty
  | _ :: rest => pat.isPrefixOf text || containsSubList rest pat

/-- Model of Go `strings.Contains` on strings. -/
def goContainsSub (s sub : String) : Bool := containsSubList s.toList sub.toList

/-- Model of Go `strings.ToUpper` (ASCII range, which covers all symbols the
    library handles). -/
def goToUpper (s : String) : String := ⟨s.toList.map Char.toUpper⟩

/-- Model of Go `strings.ToLower` (ASCII range). -/
def goToLower (s : String) : String := ⟨s.toList.map Char.toLower⟩

/-- Model of Go `strings.HasPrefix`. -/
def goStarts (s pat : String) : Bool := pat.toList.isPrefixOf s.toList

/-- Model of Go `strings.HasSuffix`. -/
def goEnds (s pat : String) : Bool := pat.toList.reverse.isPrefixOf s.toList.reverse

/-- Model of Go `strings.TrimSpace` (ASCII whitespace). -/
def goTrimSpace (s : String) : String :=
  ⟨(s.toList.dropWhile Char.isWhitespace).reverse.dropWhile Char.isWhitespace |>.reverse⟩

-- quick sanity examples (kernel-evaluable)
example : splitChar ',' "a,,b".toList = [['a'], [], ['b']] := by decide
example : splitChar ',' [] = [[]] := by decide
example : parseNatDigits "0042".toList = some 42 := by decide
example : natReprChars 1078 = ['1', '0', '7', '8'] := by decide
example : goContainsSub "BTC-USD" "USD" = true := by decide
example : goToUpper "btc-usd" = "BTC-USD" := by decide
example : goStarts "tiingo-btc" "tiingo" = true := by decide
example : goStrLe "zrxbtc" "adabtc" = false := by decide

/-- Calendar fields of a Go `time.Time` (UTC), at second precision — the
    granularity the serializers use. -/
structure DateTime where
  year : Nat
  month : Nat
  day : Nat
  hour : Nat
  minute : Nat
  sec : Nat
deriving DecidableEq, Repr

/-- The zero `time.Time` (January 1, year 1, 00:00:00 UTC), produced by
    `make([]time.Time, n)` and by `time.Parse` on failure. -/
def zeroDateTime : DateTime := ⟨1, 1, 1, 0, 0, 0⟩

/-- Gregorian leap-year rule, as in Go's `time` package. -/
def isLeapYear (y : Nat) : Bool := y % 4 = 0 && (y % 100 ≠ 0 || y % 400 = 0)

/-- Days in a month (proleptic Gregorian), used by Go's date validation. -/
def daysInMonth (y m : Nat) : Nat :=
  if m = 2 then (if isLeapYear y then 29 else 28)
  else if m = 4 || m = 6 || m = 9 || m = 11 then 30
  else 31

/-- A `DateTime` that Go's `time.Parse` accepts for a 4-digit-year layout:
    in-range calendar fields and a year below 10000. -/
def ValidDT (d : DateTime) : Prop :=
  d.year ≤ 9999 ∧ 1 ≤ d.month ∧ d.month ≤ 12 ∧ 1 ≤ d.day ∧
    d.day ≤ daysInMonth d.year d.month ∧ d.hour ≤ 23 ∧ d.minute ≤ 59 ∧ d.sec ≤ 59

instance (d : DateTime) : Decidable (ValidDT d) := by unfold ValidDT; infer_instance

/-- Truncate to minute precision (what the `2006-01-02 15:04` layout keeps). -/
def truncMin (d : DateTime) : DateTime := ⟨d.year, d.month, d.day, d.hour, d.minute, 0⟩

/-- Value of two digit characters, `none` if either is not a digit. -/
def val2q (a b : Char) : Option Nat :=
  match charDigitVal a, charDigitVal b with
  | some x, some y => some (10 * x + y)
  | _, _ => none

/-- Value of four digit characters, `none` if any is not a digit. -/
def val4q (a b c d : Char) : Option Nat :=
  match charDigitVal a, charDigitVal b, charDigitVal c, charDigitVal d with
  | some x, some y, some z, some w => some (1000 * x + 100 * y + 10 * z + w)
  | _, _, _, _ => none

/-- Rendering of the Go layout `2006-01-02 15:04` (used by `Quote.CSV` and
    the collection CSV writer). -/
def formatMinuteChars (d : DateTime) : List Char :=
  pad4 d.year ++ '-' :: pad2 d.month ++ '-' :: pad2 d.day ++
    ' ' :: pad2 d.hour ++ ':' :: pad2 d.minute

/-- Model of Go `time.Parse("2006-01-02 15:04", s)`: fixed-width fields,
    exact separators, calendar validation; `none` models the error return. -/
def parseMinuteChars : List Char → Option DateTime
  | [y1, y2, y3, y4, s1, o1, o2, s2, d1, d2, s3, h1, h2, s4, m1, m2] =>
    match val4q y1 y2 y3 y4, val2q o1 o2, val2q d1 d2, val2q h1 h2, val2q m1 m2 with
    | some y, some mo, some da, some h, some mi =>
      if s1 = '-' ∧ s2 = '-' ∧ s3 = ' ' ∧ s4 = ':' ∧ 1 ≤ mo ∧ mo ≤ 12 ∧ 1 ≤ da ∧
          da ≤ daysInMonth y mo ∧ h ≤ 23 ∧ mi ≤ 59 then
        some ⟨y, mo, da, h, mi, 0⟩
      else none
    | _, _, _, _, _ => none
  | _ => none

/-- Go `time.Parse` with the minute layout as the callers use it: the error
    is discarded, so a failed parse leaves the zero time. -/
def goTimeParseMinute (s : String) : DateTime :=
  (parseMinuteChars s.toList).getD zeroDateTime

/-- Rendering of the Go layout `2006-01-02` (used by the Tiingo daily
    adapter on the first ten bytes of the provider's date string). -/
def formatDateChars (d : DateTime) : List Char :=
  pad4 d.year ++ '-' :: pad2 d.month ++ '-' :: pad2 d.day

/-- Model of Go `time.Parse("2006-01-02", s)`. -/
def parseDateChars : List Char → Option DateTime
  | [y1, y2, y3, y4, s1, o1, o2, s2, d1, d2] =>
    match val4q y1 y2 y3 y4, val2q o1 o2, val2q d1 d2 with
    | some y, some mo, some da =>
      if s1 = '-' ∧ s2 = '-' ∧ 1 ≤ mo ∧ mo ≤ 12 ∧ 1 ≤ da ∧ da ≤ daysInMonth y mo then
        some ⟨y, mo, da, 0, 0, 0⟩
      else none
    | _, _, _ => none
  | _ => none

/-- RFC 3339 rendering `2006-01-02T15:04:05Z` of a UTC time with no
    sub-second part — what `encoding/json` emits for the `time.Time` values
    this library builds (all UTC, whole seconds). -/
def rfc3339Chars (d : DateTime) : List Char :=
  formatDateChars d ++ 'T' :: pad2 d.hour ++ ':' :: pad2 d.minute ++
    ':' :: pad2 d.sec ++ ['Z']

/-- Model of RFC 3339 parsing (`time.RFC3339` layout, `Z` offset, whole
    seconds) as used when decoding JSON dates; `none` models a parse error. -/
def parseRFC3339Chars : List Char → Option DateTime
  | [y1, y2, y3, y4, s1, o1, o2, s2, d1, d2, t1, h1, h2, c1, m1, m2, c2, e1, e2, z1] =>
    match val4q y1 y2 y3 y4, val2q o1 o2, val2q d1 d2,
        val2q h1 h2, val2q m1 m2, val2q e1 e2 with
    | some y, some mo, some da, some h, some mi, some se =>
      if s1 = '-' ∧ s2 = '-' ∧ t1 = 'T' ∧ c1 = ':' ∧ c2 = ':' ∧ z1 = 'Z' ∧
          1 ≤ mo ∧ mo ≤ 12 ∧ 1 ≤ da ∧ da ≤ daysInMonth y mo ∧
          h ≤ 23 ∧ mi ≤ 59 ∧ se ≤ 59 then
        some ⟨y, mo, da, h, mi, se⟩
      else none
    | _, _, _, _, _, _ => none
  | _ => none

example : parseMinuteChars "2021-01-01 00:00".toList = some ⟨2021, 1, 1, 0, 0, 0⟩ := by decide
example : parseMinuteChars "2021-02-29 00:00".toList = none := by decide
example : parseMinuteChars (formatMinuteChars ⟨2024, 2, 29, 23, 59, 0⟩)
    = some ⟨2024, 2, 29, 23, 59, 0⟩ := by decide
example : parseRFC3339Chars (rfc3339Chars ⟨2021, 12, 31, 7, 8, 9⟩)
    = some ⟨2021, 12, 31, 7, 8, 9⟩ := by decide

/-- Floor of a rational, computed from `num`/`den` with floor division so
    that the kernel can evaluate it. -/
def qfloor (x : ℚ) : Int := Int.fdiv x.num x.den

/-- Round a rational to the nearest integer, ties to even — the rounding
    `fmt`'s `%.*f` verb applies to the decimal rendering of a float. -/
def roundHE (x : ℚ) : Int :=
  let f := Int.fdiv x.num x.den
  let rm := x.num - f * x.den
  if 2 * rm < (x.den : Int) then f
  else if (x.den : Int) < 2 * rm then f + 1
  else if f % 2 = 0 then f else f + 1

/-- Exact product `x * 10 ^ p`, built with `mkRat` to stay kernel-evaluable. -/
def scalePow10 (p : Nat) (x : ℚ) : ℚ := mkRat (x.num * (10 : Int) ^ p) x.den

/-- Absolute value through `num`/`den` (kernel-evaluable). -/
def qabs (x : ℚ) : ℚ := mkRat (x.num.natAbs : Int) x.den

/-- The unsigned body of a fixed-precision rendering of the scaled value
    `m` (in units of `10 ^ -prec`): integer part, then exactly `prec`
    fraction digits. -/
def fixedBodyChars (prec m : Nat) : List Char :=
  let fpcs := natReprChars (m % 10 ^ prec)
  natReprChars (m / 10 ^ prec) ++
    (if prec = 0 then [] else '.' :: (List.replicate (prec - fpcs.length) '0' ++ fpcs))

/-- Model of Go `fmt.Sprintf("%.*f", prec, x)`: sign, integer part, and a
    fraction part of exactly `prec` digits, rounding the value at the last
    kept digit. -/
def formatFixedChars (prec : Nat) (x : ℚ) : List Char :=
  (if x.num < 0 then ['-'] else []) ++
    fixedBodyChars prec (roundHE (scalePow10 prec (qabs x))).toNat

/-- Value of an unsigned decimal string `digits[.digits]`; `none` models a
    `strconv.ParseFloat` syntax error.  (Exponent, hex and inf/nan forms,
    which this library never produces nor receives on the modelled paths,
    are treated as syntax errors.) -/
def parseUnsignedChars (cs : List Char) : Option ℚ :=
  match splitChar '.' cs with
  | [a] =>
    if a ≠ [] ∧ a.all isDigitCh then some (mkRat (digitsVal a : Int) 1) else none
  | [a, b] =>
    if (a ≠ [] ∨ b ≠ []) ∧ a.all isDigitCh ∧ b.all isDigitCh then
      some (mkRat ((digitsVal a : Int) * (10 : Int) ^ b.length + (digitsVal b : Int))
        ((10 : Nat) ^ b.length))
    else none
  | _ => none

/-- Model of Go `strconv.ParseFloat` as its callers here use it: the error
    is discarded, so a malformed number leaves the zero value. -/
def goParseFloatChars (cs : List Char) : ℚ :=
  match cs with
  | '+' :: rest => (parseUnsignedChars rest).getD 0
  | '-' :: rest => Rat.neg ((parseUnsignedChars rest).getD 0)
  | rest => (parseUnsignedChars rest).getD 0

example : formatFixedChars 2 (mkRat 3 2) = ['1', '.', '5', '0'] := by decide
example : formatFixedChars 2 (mkRat 1 1000) = ['0', '.', '0', '0'] := by decide
example : formatFixedChars 8 (mkRat 100 1) =
  ['1', '0', '0', '.', '0', '0', '0', '0', '0', '0', '0', '0'] := by decide
example : formatFixedChars 2 (mkRat (-1) 2) = ['-', '0', '.', '5', '0'] := by decide
example : goParseFloatChars "1.0".toList = mkRat 1 1 := by decide
example : goParseFloatChars "0.50".toList = mkRat 1 2 := by decide
example : goParseFloatChars "100".toList = mkRat 100 1 := by decide
example : goParseFloatChars "-1.5".toList = mkRat (-3) 2 := by decide
example : goParseFloatChars "".toList = 0 := by decide
example : goParseFloatChars "2021-01-01 00:00".toList = 0 := by decide

/-- The `Quote` struct: symbol, unused `Precision` field, and the six
    parallel bar sequences (`open` is a Lean keyword, hence `open_`). -/
structure Quote where
  symbol : String
  precision : Int
  date : List DateTime
  open_ : List ℚ
  high : List ℚ
  low : List ℚ
  close : List ℚ
  volume : List ℚ
deriving DecidableEq, Repr

/-- Model of `NewQuote(symbol, bars)`: all six sequences allocated at length
    `bars`, zero-valued (`make` zero-fills; the zero `time.Time` is
    `zeroDateTime`). -/
def newQuote (symbol : String) (bars : Nat) : Quote :=
  ⟨symbol, 0, List.replicate bars zeroDateTime, List.replicate bars 0,
    List.replicate bars 0, List.replicate bars 0, List.replicate bars 0,
    List.replicate bars 0⟩

/-- Model of `getPrecision`: 8 decimal places when the uppercased symbol
    contains `BTC`, `ETH` or `USD`, otherwise 2. -/
def getPrecision (symbol : String) : Nat :=
  if goContainsSub (goToUpper symbol) "BTC" || goContainsSub (goToUpper symbol) "ETH" ||
      goContainsSub (goToUpper symbol) "USD" then 8 else 2

/-- One CSV data row of `Quote.CSV`: minute-formatted date and the five
    numeric fields at the symbol-derived precision, newline-terminated.
    Go indexes `Date`/`Open`/… at the bar index taken from ranging over
    `Close`; `getD` stands in for the indexing (Go would panic on a
    short slice — the theorems only use equal-length records). -/
def csvRowCore (q : Quote) (prec : Nat) (bar : Nat) : List Char :=
  formatMinuteChars (q.date.getD bar zeroDateTime) ++
    ',' :: formatFixedChars prec (q.open_.getD bar 0) ++
    ',' :: formatFixedChars prec (q.high.getD bar 0) ++
    ',' :: formatFixedChars prec (q.low.getD bar 0) ++
    ',' :: formatFixedChars prec (q.close.getD bar 0) ++
    ',' :: formatFixedChars prec (q.volume.getD bar 0)

/-- One CSV data row with its terminating newline. -/
def csvRowChars (q : Quote) (prec : Nat) (bar : Nat) : List Char :=
  csvRowCore q prec bar ++ ['\n']

/-- Header line of the single-record CSV format. -/
def csvHeaderChars : List Char := "datetime,open,high,low,close,volume".toList

/-- Model of `Quote.CSV()`: header line, then one row per bar (the loop
    ranges over the `Close` sequence). -/
def Quote.CSV (q : Quote) : String :=
  ⟨csvHeaderChars ++ '\n' ::
    ((List.range q.close.length).map (csvRowChars q (getPrecision q.symbol))).flatten⟩

/-- Decimal rendering of a Go `int64` as the `%d` verb prints it. -/
def intReprChars (n : Int) : List Char :=
  if n < 0 then '-' :: natReprChars n.natAbs else natReprChars n.toNat

/-- Days between 1970-01-01 and the given proleptic-Gregorian date
    (Hinnant's civil-from-days algorithm, as Go's `time` package computes
    for UTC instants).  Floor division throughout. -/
def daysFromCivil (y m d : Int) : Int :=
  let y' := if m ≤ 2 then y - 1 else y
  let era := Int.fdiv y' 400
  let yoe := y' - era * 400
  let mp := (m + 9) % 12
  let doy := Int.fdiv (153 * mp + 2) 5 + d - 1
  let doe := yoe * 365 + Int.fdiv yoe 4 - Int.fdiv yoe 100 + doy
  era * 146097 + doe - 719468

/-- `t.UnixNano() / 1000000` (epoch milliseconds) of a UTC whole-second
    time, as the Highstock writer prints it. -/
def unixMillis (dt : DateTime) : Int :=
  (daysFromCivil (dt.year : Int) (dt.month : Int) (dt.day : Int) * 86400 +
    (dt.hour : Int) * 3600 + (dt.minute : Int) * 60 + (dt.sec : Int)) * 1000

/-- One Highstock tuple row: epoch millis, the five numeric fields at the
    symbol-derived precision, a comma after every tuple but the last, and a
    newline. -/
def highstockRowChars (q : Quote) (prec : Nat) (bar : Nat) : List Char :=
  '[' :: intReprChars (unixMillis (q.date.getD bar zeroDateTime)) ++
    ',' :: formatFixedChars prec (q.open_.getD bar 0) ++
    ',' :: formatFixedChars prec (q.high.getD bar 0) ++
    ',' :: formatFixedChars prec (q.low.getD bar 0) ++
    ',' :: formatFixedChars prec (q.close.getD bar 0) ++
    ',' :: formatFixedChars prec (q.volume.getD bar 0) ++
    ']' :: (if bar = q.close.length - 1 then [] else [',']) ++ ['
']

/-- Model of `Quote.Highstock()`: a JSON array of per-bar tuples (the loop
    ranges over the `Close` sequence; precision is recomputed from the
    symbol). -/
def Quote.Highstock (q : Quote) : String :=
  ⟨"[\n".toList ++
    ((List.range q.close.length).map (highstockRowChars q (getPrecision q.symbol))).flatten ++
    "]\n".toList⟩

/-- The `15:04` time-of-day layout used by the Amibroker writer. -/
def formatHMChars (d : DateTime) : List Char := pad2 d.hour ++ ':' :: pad2 d.minute

/-- One Amibroker CSV row: date and time in separate columns, then the five
    numeric fields at the symbol-derived precision. -/
def amibrokerRowChars (q : Quote) (prec : Nat) (bar : Nat) : List Char :=
  formatDateChars (q.date.getD bar zeroDateTime) ++
    ',' :: formatHMChars (q.date.getD bar zeroDateTime) ++
    ',' :: formatFixedChars prec (q.open_.getD bar 0) ++
    ',' :: formatFixedChars prec (q.high.getD bar 0) ++
    ',' :: formatFixedChars prec (q.low.getD bar 0) ++
    ',' :: formatFixedChars prec (q.close.getD bar 0) ++
    ',' :: formatFixedChars prec (q.volume.getD bar 0) ++ ['\n']

/-- Header line of the Amibroker CSV format. -/
def amibrokerHeaderChars : List Char := "date,time,open,high,low,close,volume".toList

/-- Model of `Quote.Amibroker()`: header line, then one row per bar (the
    loop ranges over the `Close` sequence; precision is recomputed from the
    symbol). -/
def Quote.Amibroker (q : Quote) : String :=
  ⟨amibrokerHeaderChars ++ '\n' ::
    ((List.range q.close.length).map (amibrokerRowChars q (getPrecision q.symbol))).flatten⟩

/-- One parsed bar. -/
structure Bar where
  date : DateTime
  open_ : ℚ
  high : ℚ
  low : ℚ
  close : ℚ
  volume : ℚ
deriving DecidableEq, Repr

/-- The bar a six-field CSV row parses to (errors discarded field-wise, as
    in the source). -/
def barOfFields (c0 c1 c2 c3 c4 c5 : List Char) : Bar :=
  ⟨(parseMinuteChars c0).getD zeroDateTime, goParseFloatChars c1, goParseFloatChars c2,
    goParseFloatChars c3, goParseFloatChars c4, goParseFloatChars c5⟩

/-- The fill loop of `NewQuoteFromCSV`: parse rows in order, stopping at the
    first row that does not split into exactly six fields (`break`). -/
def parseRowsCSV : List (List Char) → List Bar
  | [] => []
  | r :: rest =>
    match splitChar ',' r with
    | [c0, c1, c2, c3, c4, c5] => barOfFields c0 c1 c2 c3 c4 c5 :: parseRowsCSV rest
    | _ => []

/-- Assemble a `Quote` from `bars` parsed bars in a record pre-allocated for
    `alloc` bars: slots the fill loop never reached keep their zero values. -/
def quoteOfBars (symbol : String) (alloc : Nat) (bars : List Bar) : Quote :=
  ⟨symbol, 0,
    bars.map Bar.date ++ List.replicate (alloc - bars.length) zeroDateTime,
    bars.map Bar.open_ ++ List.replicate (alloc - bars.length) 0,
    bars.map Bar.high ++ List.replicate (alloc - bars.length) 0,
    bars.map Bar.low ++ List.replicate (alloc - bars.length) 0,
    bars.map Bar.close ++ List.replicate (alloc - bars.length) 0,
    bars.map Bar.volume ++ List.replicate (alloc - bars.length) 0⟩

/-- Model of `NewQuoteFromCSV(symbol, csv)`: split on newlines, allocate
    `numrows - 1` bars, fill from row 1 on, breaking at the first malformed
    row.  The error result is always nil in the source, so the model returns
    the `Quote` directly. -/
def newQuoteFromCSV (symbol csv : String) : Quote :=
  let tmp := splitChar '\n' csv.toList
  quoteOfBars symbol (tmp.length - 1) (parseRowsCSV (tmp.drop 1))

/-- Go `time.Parse(layout, value)` for the layouts this library passes when
    a caller-supplied format string is in play.  Only the default layout is
    given semantics; other layouts yield the zero time, which no claim
    depends on. -/
def goTimeParseWith (layout s : String) : DateTime :=
  if layout = "2006-01-02 15:04" then goTimeParseMinute s else zeroDateTime

/-- The fill loop of `NewQuoteFromCSVDateFormat`: no field-count guard, so a
    row with fewer than six comma-fields makes the Go code panic (index out
    of range), modelled as `none`; extra fields beyond six are ignored. -/
def parseRowsNoGuard (layout : String) : List (List Char) → Option (List Bar)
  | [] => some []
  | r :: rest =>
    match splitChar ',' r with
    | c0 :: c1 :: c2 :: c3 :: c4 :: c5 :: _ =>
      (parseRowsNoGuard layout rest).map
        (⟨goTimeParseWith layout ⟨c0⟩, goParseFloatChars c1, goParseFloatChars c2,
          goParseFloatChars c3, goParseFloatChars c4, goParseFloatChars c5⟩ :: ·)
    | _ => none

/-- Model of `NewQuoteFromCSVDateFormat(symbol, csv, format)`: note the
    record is allocated with `NewQuote("", …)`, so the symbol argument never
    reaches the result; a blank format falls back to the default layout. -/
def newQuoteFromCSVDateFormat (symbol csv format : String) : Option Quote :=
  let tmp := splitChar '\n' csv.toList
  let layout := if goTrimSpace format = "" then "2006-01-02 15:04" else format
  (parseRowsNoGuard layout (tmp.drop 1)).map (quoteOfBars "" (tmp.length - 1))

example : (newQuoteFromCSV "spy"
    "datetime,open,high,low,close,volume\n2021-01-01 00:00,1.0,2.0,0.5,1.5,100\n").close.length
    = 2 := by decide
example : (newQuoteFromCSV "spy"
    "datetime,open,high,low,close,volume\n2021-01-01 00:00,1.0,2.0,0.5,1.5,100").close
    = [mkRat 3 2] := by decide
example : newQuoteFromCSVDateFormat "spy"
    "datetime,open,high,low,close,volume\n2021-01-01 00:00,1.0,2.0,0.5,1.5,100\n" "" =
    none := by decide

/-- Decoded form of the JSON wire object for a `Quote`, i.e. what
    `encoding/json` produces/consumes for the tagged fields (`Precision`
    has tag `-` and is never serialized).  JSON numbers are modelled by
    their exact decimal value, dates by their RFC 3339 strings.  A missing
    key is `none` (Unmarshal leaves the field's zero value). -/
structure QuoteWire where
  symbol : Option String
  date : Option (List String)
  open_ : Option (List ℚ)
  high : Option (List ℚ)
  low : Option (List ℚ)
  close : Option (List ℚ)
  volume : Option (List ℚ)
deriving DecidableEq, Repr

/-- Model of `json.Marshal` on a `Quote` (all tagged fields emitted; the
    `indent` flag of `Quote.JSON` only changes whitespace, which the wire
    value abstracts over). -/
def Quote.JSONWire (q : Quote) (_indent : Bool) : QuoteWire :=
  ⟨some q.symbol, some (q.date.map fun d => (⟨rfc3339Chars d⟩ : String)),
    some q.open_, some q.high, some q.low, some q.close, some q.volume⟩

/-- Parse every date string of a JSON `date` array; any malformed entry
    makes `json.Unmarshal` report an error. -/
def parseWireDates : List String → Option (List DateTime)
  | [] => some []
  | s :: rest => do
    let d ← parseRFC3339Chars s.toList
    let ds ← parseWireDates rest
    pure (d :: ds)

/-- Model of `NewQuoteFromJSON`: `json.Unmarshal` into a fresh `Quote`
    copies each present array verbatim (no cross-field length check) and
    leaves absent fields at their zero values; `none` models the error
    return taken on a malformed date. -/
def newQuoteFromJSON (w : QuoteWire) : Option Quote := do
  let dates ← match w.date with
    | none => pure []
    | some ss => parseWireDates ss
  pure ⟨w.symbol.getD "", 0, dates, w.open_.getD [], w.high.getD [],
    w.low.getD [], w.close.getD [], w.volume.getD []⟩

/-- Model of `Quote.JSON` followed by `NewQuoteFromJSON` at the wire level. -/
def jsonRoundTrip (q : Quote) (indent : Bool) : Option Quote :=
  newQuoteFromJSON (q.JSONWire indent)

/-- Count of rows per leading symbol column, in first-appearance order: the
    contents of the `index` map built by the first scan of
    `NewQuotesFromCSV` (Go map iteration order is arbitrary; theorems
    quantify over the enumeration order where it matters). -/
def symCounts (rows : List (List Char)) : List (String × Nat) :=
  rows.foldl
    (fun acc r =>
      let sym : String := ⟨(splitChar ',' r).headD []⟩
      match acc.find? (fun p => p.1 = sym) with
      | some _ => acc.map (fun p => if p.1 = sym then (p.1, p.2 + 1) else p)
      | none => acc ++ [(sym, 1)])
    []

/-- One bar taken from a collection-CSV row: columns 1–6 after the symbol
    column.  Accessing `line[1]`…`line[6]` on a row with fewer than seven
    fields panics in Go, modelled as `none`. -/
def collBarOfRow (r : List Char) : Option Bar :=
  match splitChar ',' r with
  | _ :: c1 :: c2 :: c3 :: c4 :: c5 :: c6 :: _ =>
    some ⟨(parseMinuteChars c1).getD zeroDateTime, goParseFloatChars c2,
      goParseFloatChars c3, goParseFloatChars c4, goParseFloatChars c5,
      goParseFloatChars c6⟩
  | _ => none

/-- Take `n` bars from the row stream (consecutive rows, no symbol check —
    exactly what the fill loop of `NewQuotesFromCSV` does). -/
def takeBars : Nat → List (List Char) → Option (List Bar × List (List Char))
  | 0, rows => some ([], rows)
  | _ + 1, [] => none
  | n + 1, r :: rows => do
    let b ← collBarOfRow r
    let (bs, rest) ← takeBars n rows
    pure (b :: bs, rest)

/-- The per-symbol loop of `NewQuotesFromCSV`, for one given enumeration
    order of the symbol/count map. -/
def fillQuotesLoop : List (String × Nat) → List (List Char) → Option (List Quote)
  | [], _ => some []
  | (sym, n) :: rest, rows => do
    let (bs, rows') ← takeBars n rows
    let qs ← fillQuotesLoop rest rows'
    pure (quoteOfBars sym n bs :: qs)

/-- Model of `NewQuotesFromCSV(csv)` parameterized by the iteration order
    `enum` of the symbol/count map (Go randomizes it; `symCounts` gives the
    map's contents in first-appearance order).  `none` models a panic. -/
def newQuotesFromCSVWith (enum : List (String × Nat)) (csv : String) : Option (List Quote) :=
  let tmp := splitChar '\n' csv.toList
  fillQuotesLoop enum (tmp.drop 1)

example : symCounts (splitChar '\n' "h\na,x\nb,x\na,x".toList |>.drop 1) =
  [("a", 2), ("b", 1)] := by decide

/-- A `Quote` as the exchange adapters (Coinbase, Kraken, Huobi) build it:
    these only ever construct dates with `time.Unix(sec, 0)`, so the date
    sequence is represented by the Unix seconds themselves (`time.Unix` is
    strictly monotone and injective). -/
structure RawQuote where
  symbol : String
  date : List Int
  open_ : List ℚ
  high : List ℚ
  low : List ℚ
  close : List ℚ
  volume : List ℚ
deriving DecidableEq, Repr

/-- `NewQuote` at the `RawQuote` representation.  Only used with `n = 0`
    (error paths) or followed by a full overwrite of every slot, as in the
    source, so representing unassigned `time.Time` zeros by second 0 is
    never observable. -/
def rawNewQuote (symbol : String) (bars : Nat) : RawQuote :=
  ⟨symbol, List.replicate bars 0, List.replicate bars 0, List.replicate bars 0,
    List.replicate bars 0, List.replicate bars 0, List.replicate bars 0⟩

/-- Append one fetched page onto the accumulated record, field by field
    (the six `append(quote.X, q.X...)` lines). -/
def rawAppend (acc q : RawQuote) : RawQuote :=
  ⟨acc.symbol, acc.date ++ q.date, acc.open_ ++ q.open_, acc.high ++ q.high,
    acc.low ++ q.low, acc.close ++ q.close, acc.volume ++ q.volume⟩

/-- Go `int64(f)` on a float: truncation toward zero, on the `ℚ` model. -/
def goInt64OfFloat (x : ℚ) : Int :=
  if 0 ≤ x.num then Int.fdiv x.num x.den else -Int.fdiv (-x.num) x.den

/-- One Coinbase candle: the upstream `[6]float64` array with positions
    `[time, low, high, open, close, volume]`. -/
structure CoinbaseBar where
  t : ℚ
  low : ℚ
  high : ℚ
  open_ : ℚ
  close : ℚ
  volume : ℚ
deriving DecidableEq, Repr

/-- The fill pass of `NewQuoteFromCoinbase` for one page: destination index
    `numrows - 1 - row` for source index `row` ("reverse the order"). -/
def coinbaseFillPage (symbol : String) (bars : List CoinbaseBar) : RawQuote :=
  let n := bars.length
  let at_ := fun j => bars.getD (n - 1 - j) ⟨0, 0, 0, 0, 0, 0⟩
  ⟨symbol, (List.range n).map (fun j => goInt64OfFloat (at_ j).t),
    (List.range n).map (fun j => (at_ j).open_),
    (List.range n).map (fun j => (at_ j).high),
    (List.range n).map (fun j => (at_ j).low),
    (List.range n).map (fun j => (at_ j).close),
    (List.range n).map (fun j => (at_ j).volume)⟩

/-- Outcome of one Coinbase page request: transport error, malformed JSON
    (logged, then treated as an empty page), or a decoded candle list. -/
inductive CoinbasePage where
  | neterr : CoinbasePage
  | badjson : CoinbasePage
  | ok : List CoinbaseBar → CoinbasePage

/-- The paging loop of `NewQuoteFromCoinbase`: a transport error aborts with
    an empty record and a non-nil error; otherwise each page is filled
    (reversed) and appended. -/
def coinbaseLoop (symbol : String) (acc : RawQuote) :
    List CoinbasePage → RawQuote × Bool
  | [] => (acc, false)
  | .neterr :: _ => (rawNewQuote "" 0, true)
  | .badjson :: rest => coinbaseLoop symbol (rawAppend acc (coinbaseFillPage symbol [])) rest
  | .ok bars :: rest => coinbaseLoop symbol (rawAppend acc (coinbaseFillPage symbol bars)) rest

/-- Model of `NewQuoteFromCoinbase` over the sequence of page responses the
    paging loop receives (URL construction and the fixed sleep are not
    modelled).  The `Bool` is the non-nil-error flag. -/
def newQuoteFromCoinbase (symbol : String) (pages : List CoinbasePage) : RawQuote × Bool :=
  coinbaseLoop symbol ⟨symbol, [], [], [], [], [], []⟩ pages

/-- One Kraken OHLC row: upstream positions `[time, open, high, low, close,
    vwap, volume, count]`, time a JSON number and all prices strings. -/
structure KrakenBar where
  t : ℚ
  open_ : String
  high : String
  low : String
  close : String
  vwap : String
  volume : String
  count : Int
deriving DecidableEq, Repr

/-- The fill pass of `NewQuoteFromKraken`: same order as upstream (no
    reversal), string prices through `strconv.ParseFloat`. -/
def krakenFill (symbol : String) (bars : List KrakenBar) : RawQuote :=
  ⟨symbol, bars.map (fun b => goInt64OfFloat b.t),
    bars.map (fun b => goParseFloatChars b.open_.toList),
    bars.map (fun b => goParseFloatChars b.high.toList),
    bars.map (fun b => goParseFloatChars b.low.toList),
    bars.map (fun b => goParseFloatChars b.close.toList),
    bars.map (fun b => goParseFloatChars b.volume.toList)⟩

/-- Outcome of the Kraken OHLC request, as the adapter distinguishes them. -/
inductive KrakenResp where
  | neterr : KrakenResp
  | badjson : KrakenResp
  | notfound : KrakenResp
  | ok : List KrakenBar → KrakenResp

/-- Model of `NewQuoteFromKraken`: transport/JSON errors yield an empty
    record with a non-nil error; a missing symbol key yields an empty record
    with a nil error; otherwise the filled record is appended onto the
    (empty) accumulator. -/
def newQuoteFromKraken (symbol : String) (resp : KrakenResp) : RawQuote × Bool :=
  match resp with
  | .neterr => (rawNewQuote "" 0, true)
  | .badjson => (rawNewQuote "" 0, true)
  | .notfound => (rawNewQuote "" 0, false)
  | .ok bars => (rawAppend ⟨symbol, [], [], [], [], [], []⟩ (krakenFill symbol bars), false)

/-- One Huobi kline entry (decoded struct fields). -/
structure HuobiBar where
  id : Int
  open_ : ℚ
  close : ℚ
  low : ℚ
  high : ℚ
  amount : ℚ
  vol : ℚ
  count : Int
deriving DecidableEq, Repr

/-- The fill pass of `NewQuoteFromHuobi`: destination index
    `numrows - 1 - bar` for source index `bar` (upstream is newest-first). -/
def huobiFill (symbol : String) (bars : List HuobiBar) : RawQuote :=
  let n := bars.length
  let at_ := fun j => bars.getD (n - 1 - j) ⟨0, 0, 0, 0, 0, 0, 0, 0⟩
  ⟨symbol, (List.range n).map (fun j => (at_ j).id),
    (List.range n).map (fun j => (at_ j).open_),
    (List.range n).map (fun j => (at_ j).high),
    (List.range n).map (fun j => (at_ j).low),
    (List.range n).map (fun j => (at_ j).close),
    (List.range n).map (fun j => (at_ j).vol)⟩

/-- Outcome of the Huobi kline request.  A JSON error is only logged: the
    adapter proceeds with the zero-value result (no bars) and a nil error. -/
inductive HuobiResp where
  | neterr : HuobiResp
  | badjson : HuobiResp
  | ok : List HuobiBar → HuobiResp

/-- Model of `NewQuoteFromHuobi`. -/
def newQuoteFromHuobi (symbol : String) (resp : HuobiResp) : RawQuote × Bool :=
  match resp with
  | .neterr => (rawNewQuote "" 0, true)
  | .badjson => (rawAppend ⟨symbol, [], [], [], [], [], []⟩ (huobiFill symbol []), false)
  | .ok bars => (rawAppend ⟨symbol, [], [], [], [], [], []⟩ (huobiFill symbol bars), false)

/-- Go `time.Parse("2006-01-02", s[0:10])` as the Tiingo daily adapter
    applies it (Go would panic on a string shorter than 10 bytes; shorter
    input here simply fails the parse, which no claim exercises). -/
def goTimeParseDate10 (s : String) : DateTime :=
  (parseDateChars (s.toList.take 10)).getD zeroDateTime

/-- One decoded row of the Tiingo daily price response (the fields the fill
    pass reads). -/
structure TiingoDailyRow where
  date : String
  adjOpen : ℚ
  adjHigh : ℚ
  adjLow : ℚ
  adjClose : ℚ
  volume : ℚ
deriving DecidableEq, Repr

/-- The fill pass of `tiingoDaily`: same order as upstream, adjusted prices,
    date from the first ten bytes of the provider's date string. -/
def tiingoDailyFill (symbol : String) (rows : List TiingoDailyRow) : Quote :=
  ⟨symbol, 0, rows.map (fun r => goTimeParseDate10 r.date),
    rows.map (fun r => r.adjOpen), rows.map (fun r => r.adjHigh),
    rows.map (fun r => r.adjLow), rows.map (fun r => r.adjClose),
    rows.map (fun r => r.volume)⟩

/-- Outcome of the Tiingo daily request, as the adapter distinguishes them:
    transport error; HTTP 200 with malformed JSON; HTTP 404 (logged, nil
    error); any other status (body ignored, empty result, nil error);
    HTTP 200 with decoded rows. -/
inductive TiingoDailyResp where
  | neterr : TiingoDailyResp
  | badjson : TiingoDailyResp
  | notfound : TiingoDailyResp
  | otherStatus : TiingoDailyResp
  | ok : List TiingoDailyRow → TiingoDailyResp

/-- Model of `tiingoDaily` (and hence `NewQuoteFromTiingo`). -/
def tiingoDaily (symbol : String) (resp : TiingoDailyResp) : Quote × Bool :=
  match resp with
  | .neterr => (newQuote "" 0, true)
  | .badjson => (newQuote "" 0, true)
  | .notfound => (newQuote "" 0, false)
  | .otherStatus => (tiingoDailyFill symbol [], false)
  | .ok rows => (tiingoDailyFill symbol rows, false)

/-- One decoded entry of the Tiingo crypto `priceData` array. -/
structure TiingoCryptoRow where
  date : String
  open_ : ℚ
  high : ℚ
  low : ℚ
  close : ℚ
  volume : ℚ
deriving DecidableEq, Repr

/-- The fill pass of `tiingoCrypto`: same order as upstream, dates parsed
    with the RFC 3339 layout. -/
def tiingoCryptoFill (symbol : String) (rows : List TiingoCryptoRow) : Quote :=
  ⟨symbol, 0,
    rows.map (fun r => (parseRFC3339Chars r.date.toList).getD zeroDateTime),
    rows.map (fun r => r.open_), rows.map (fun r => r.high),
    rows.map (fun r => r.low), rows.map (fun r => r.close),
    rows.map (fun r => r.volume)⟩

/-- Outcome of the Tiingo crypto request: transport error; malformed JSON;
    an empty top-level array ("no data", nil error); or the first element's
    price data. -/
inductive TiingoCryptoResp where
  | neterr : TiingoCryptoResp
  | badjson : TiingoCryptoResp
  | nodata : TiingoCryptoResp
  | ok : List TiingoCryptoRow → TiingoCryptoResp

/-- Model of `tiingoCrypto` (and hence `NewQuoteFromTiingoCrypto`). -/
def tiingoCrypto (symbol : String) (resp : TiingoCryptoResp) : Quote × Bool :=
  match resp with
  | .neterr => (newQuote "" 0, true)
  | .badjson => (newQuote "" 0, true)
  | .nodata => (newQuote "" 0, false)
  | .ok rows => (tiingoCryptoFill symbol rows, false)

/-- The batch loop shared by the `…Syms` functions: invoke the per-symbol
    fetch sequentially, append on success, log and skip on error. -/
def batchLoop {Q : Type} (fetch : String → Q × Bool) : List String → List Q
  | [] => []
  | s :: rest =>
    let r := fetch s
    if r.2 then batchLoop fetch rest else r.1 :: batchLoop fetch rest

/-- Model of `NewQuotesFromTiingoSyms` over the per-symbol fetch outcomes
    (`fetch s` stands for `NewQuoteFromTiingo(s, startDate, endDate,
    token)`); the second component is the always-nil error. -/
def newQuotesFromTiingoSyms (fetch : String → Quote × Bool) (symbols : List String) :
    List Quote × Bool :=
  (batchLoop fetch symbols, false)

/-- Model of `NewQuotesFromCoinbaseSyms`. -/
def newQuotesFromCoinbaseSyms (fetch : String → RawQuote × Bool) (symbols : List String) :
    List RawQuote × Bool :=
  (batchLoop fetch symbols, false)

/-- Model of `NewQuotesFromKrakenSyms`. -/
def newQuotesFromKrakenSyms (fetch : String → RawQuote × Bool) (symbols : List String) :
    List RawQuote × Bool :=
  (batchLoop fetch symbols, false)

/-- The string order used to state `sort.Strings` results. -/
def strLeRel (a b : String) : Prop := goStrLe a b = true

instance : DecidableRel strLeRel := fun a b => by unfold strLeRel; infer_instance

/-- Model of Go `sort.Strings`: strings have a total order with no
    distinguishable duplicates, so the sorted permutation is unique and any
    correct sort computes it. -/
def sortStrings (l : List String) : List String := List.insertionSort strLeRel l

/-- One entry of the Tiingo crypto ticker listing (decoded fields). -/
structure TiingoMktSym where
  ticker : String
  name : String
  baseCurrency : String
  quoteCurrency : String
deriving DecidableEq, Repr

/-- Model of `getTiingoCryptoMarket`: keep tickers whose quote currency
    matches the market-name suffix.  Note: no lowercasing and no sort. -/
def getTiingoCryptoMarket (market : String) (markets : List TiingoMktSym) : List String :=
  markets.filterMap fun mkt =>
    if goEnds market "btc" && mkt.quoteCurrency == "btc" then some mkt.ticker
    else if goEnds market "eth" && mkt.quoteCurrency == "eth" then some mkt.ticker
    else if goEnds market "usd" && mkt.quoteCurrency == "usd" then some mkt.ticker
    else none

/-- One entry of the Coinbase products listing (the fields the filter
    reads). -/
structure CoinbaseProduct where
  id : String
  tradingDisabled : Bool
deriving DecidableEq, Repr

/-- Model of `getCoinbaseMarket`: ids of enabled products, sorted.  Note: no
    lowercasing (Coinbase ids are uppercase). -/
def getCoinbaseMarket (_market : String) (markets : List CoinbaseProduct) : List String :=
  sortStrings ((markets.filter (fun mkt => !mkt.tradingDisabled)).map CoinbaseProduct.id)

/-- One row of the Nasdaq screener response (the field the loop reads). -/
structure NasdaqRow where
  symbol : String
  name : String
deriving DecidableEq, Repr

/-- Model of `getNasdaqMarket`: lowercased symbols, sorted. -/
def getNasdaqMarket (_market : String) (rows : List NasdaqRow) : List String :=
  sortStrings (rows.map (fun row => goToLower row.symbol))

/-- Model of `getNasdaq100Market`: lowercased symbols, sorted (same mapping
    as `getNasdaqMarket` over a differently nested response). -/
def getNasdaq100Market (_market : String) (rows : List NasdaqRow) : List String :=
  sortStrings (rows.map (fun row => goToLower row.symbol))

/-- The `ValidMarkets` array. -/
def validMarketsList : List String :=
  ["etf", "nasdaq", "nasdaq100", "amex", "nyse", "megacap", "largecap", "midcap",
   "smallcap", "microcap", "nanocap", "telecommunications", "health_care", "finance",
   "real_estate", "consumer_discretionary", "consumer_staples", "industrials",
   "basic_materials", "energy", "utilities", "technology", "tiingo-btc", "tiingo-eth",
   "tiingo-usd", "coinbase"]

/-- Model of `ValidMarket(market)`: a tiingo market with no configured
    `TIINGO_API_TOKEN` (modelled as the `token` argument) fails immediately;
    otherwise membership in `ValidMarkets` decides. -/
def validMarket (market token : String) : Bool :=
  if goStarts market "tiingo" && token == "" then false
  else validMarketsList.contains market

/-- The URL switch of `NewMarketList` (the `token` only appears in the
    tiingo URLs). -/
def marketURL (market token : String) : String :=
  if market = "nasdaq" then "https://api.nasdaq.com/api/screener/stocks?tableonly=true&offset=0&download=true&exchange=NASDAQ"
  else if market = "nasdaq100" then "https://api.nasdaq.com/api/quote/list-type/nasdaq100"
  else if market = "amex" then "https://api.nasdaq.com/api/screener/stocks?tableonly=true&offset=0&download=true&exchange=AMEX"
  else if market = "nyse" then "https://api.nasdaq.com/api/screener/stocks?tableonly=true&offset=0&download=true&exchange=NYSE"
  else if market = "megacap" then "https://api.nasdaq.com/api/screener/stocks?tableonly=true&offset=0&download=true&marketcap=mega"
  else if market = "largecap" then "https://api.nasdaq.com/api/screener/stocks?tableonly=true&offset=0&download=true&marketcap=large"
  else if market = "midcap" then "https://api.nasdaq.com/api/screener/stocks?tableonly=true&offset=0&download=true&marketcap=mid"
  else if market = "smallcap" then "https://api.nasdaq.com/api/screener/stocks?tableonly=true&offset=0&download=true&marketcap=small"
  else if market = "microcap" then "https://api.nasdaq.com/api/screener/stocks?tableonly=true&offset=0&download=true&marketcap=micro"
  else if market = "nanocap" then "https://api.nasdaq.com/api/screener/stocks?tableonly=true&offset=0&download=true&marketcap=nano"
  else if market = "telecommunications" then "https://api.nasdaq.com/api/screener/stocks?tableonly=true&offset=0&download=true&sector=telecommunications"
  else if market = "health_care" then "https://api.nasdaq.com/api/screener/stocks?tableonly=true&offset=0&download=true&sector=health_care"
  else if market = "finance" then "https://api.nasdaq.com/api/screener/stocks?tableonly=true&offset=0&download=true&sector=finance"
  else if market = "real_estate" then "https://api.nasdaq.com/api/screener/stocks?tableonly=true&offset=0&download=true&sector=real_estate"
  else if market = "consumer_discretionary" then "https://api.nasdaq.com/api/screener/stocks?tableonly=true&offset=0&download=true&sector=consumer_discretionary"
  else if market = "consumer_staples" then "https://api.nasdaq.com/api/screener/stocks?tableonly=true&offset=0&download=true&sector=consumer_staples"
  else if market = "industrials" then "https://api.nasdaq.com/api/screener/stocks?tableonly=true&offset=0&download=true&sector=industrials"
  else if market = "basic_materials" then "https://api.nasdaq.com/api/screener/stocks?tableonly=true&offset=0&download=true&sector=basic_materials"
  else if market = "energy" then "https://api.nasdaq.com/api/screener/stocks?tableonly=true&offset=0&download=true&sector=energy"
  else if market = "utilities" then "https://api.nasdaq.com/api/screener/stocks?tableonly=true&offset=0&download=true&sector=utilities"
  else if market = "technology" then "https://api.nasdaq.com/api/screener/stocks?tableonly=true&offset=0&download=true&sector=technology"
  else if market = "tiingo-btc" then "https://api.tiingo.com/tiingo/crypto?token=" ++ token
  else if market = "tiingo-eth" then "https://api.tiingo.com/tiingo/crypto?token=" ++ token
  else if market = "tiingo-usd" then "https://api.tiingo.com/tiingo/crypto?token=" ++ token
  else if market = "coinbase" then "https://api.exchange.coinbase.com/products"
  else ""

/-- The decoded body of whichever endpoint `NewMarketList` hits, supplied as
    an oracle (the JSON decode of the response bytes is library behavior;
    the model quantifies over its output). -/
structure DecodedResponses where
  tiingo : List TiingoMktSym
  coinbase : List CoinbaseProduct
  nasdaq : List NasdaqRow
  nasdaq100 : List NasdaqRow

/-- Model of `NewMarketList(market)`: the list of HTTP request URLs issued
    (empty on the validation-failure path, which returns before any network
    call) together with the result. -/
def newMarketList (market token : String) (resp : DecodedResponses) :
    List String × Except String (List String) :=
  if !validMarket market token then ([], .error "invalid market")
  else
    let url := marketURL market token
    let result : List String :=
      if goStarts market "tiingo" then getTiingoCryptoMarket market resp.tiingo
      else if goStarts market "coinbase" then getCoinbaseMarket market resp.coinbase
      else if market = "nasdaq100" then getNasdaq100Market market resp.nasdaq100
      else getNasdaqMarket market resp.nasdaq
    ([url], .ok result)

example : validMarket "tiingo-btc" "" = false := by decide
example : validMarket "tiingo-btc" "tok" = true := by decide
example : validMarket "bogus" "tok" = false := by decide
example : sortStrings ["btc-usd", "ada-usd"] = ["ada-usd", "btc-usd"] := by decide

/-! Claim theorems. -/

/-- The concrete CSV input of claim C4 (header, one data row, trailing
    newline). -/
def csvOneBar : String :=
  "datetime,open,high,low,close,volume\n2021-01-01 00:00,1.0,2.0,0.5,1.5,100\n"

/-- C4 counterexample: parsing the claimed CSV input yields a `Quote` with
    two bars, not "exactly one bar" — the split on the trailing newline
    produces an empty final row, the record is pre-allocated with
    `numrows - 1 = 2` bars, and the `break` on the empty row leaves the
    second bar allocated and zero-valued. -/
theorem C4_csv_one_bar_counterexample :
    (newQuoteFromCSV "spy" csvOneBar).close.length = 2 ∧
      (newQuoteFromCSV "spy" csvOneBar).close.length ≠ 1 := by
  decide

/-- C4 (amended): parsing the CSV input
    `"datetime,open,high,low,close,volume\n2021-01-01 00:00,1.0,2.0,0.5,1.5,100\n"`
    yields a `Quote` with two bars: the first with open 1.0, high 2.0,
    low 0.5, close 1.5, volume 100 and date 2021-01-01 00:00, the second the
    left-over zero bar (zero time, all numeric values 0). -/
theorem C4_csv_one_bar_amended :
    newQuoteFromCSV "spy" csvOneBar =
      ⟨"spy", 0, [⟨2021, 1, 1, 0, 0, 0⟩, ⟨1, 1, 1, 0, 0, 0⟩],
        [1, 0], [2, 0], [mkRat 1 2, 0], [mkRat 3 2, 0], [100, 0]⟩ := by
  decide

/-- The batch loop keeps exactly the successful fetches, in symbol order. -/
theorem batchLoop_eq_filterMap {Q : Type} (fetch : String → Q × Bool) :
    ∀ symbols : List String,
      batchLoop fetch symbols =
        symbols.filterMap fun s => if (fetch s).2 then none else some (fetch s).1
  | [] => rfl
  | s :: rest => by
    simp only [batchLoop, List.filterMap_cons, batchLoop_eq_filterMap fetch rest]
    split <;> simp_all

/-- C6: each batch fetch function walks the symbol list sequentially,
    appends the fetched record for every symbol whose fetch succeeded,
    skips every symbol whose fetch errored, and always returns a nil
    error. -/
theorem C6_batch_skips_errors (fetchQ : String → Quote × Bool)
    (fetchR : String → RawQuote × Bool) (symbols : List String) :
    ((newQuotesFromTiingoSyms fetchQ symbols).2 = false ∧
      (newQuotesFromTiingoSyms fetchQ symbols).1 =
        symbols.filterMap fun s => if (fetchQ s).2 then none else some (fetchQ s).1) ∧
    ((newQuotesFromCoinbaseSyms fetchR symbols).2 = false ∧
      (newQuotesFromCoinbaseSyms fetchR symbols).1 =
        symbols.filterMap fun s => if (fetchR s).2 then none else some (fetchR s).1) ∧
    ((newQuotesFromKrakenSyms fetchR symbols).2 = false ∧
      (newQuotesFromKrakenSyms fetchR symbols).1 =
        symbols.filterMap fun s => if (fetchR s).2 then none else some (fetchR s).1) :=
  ⟨⟨rfl, batchLoop_eq_filterMap fetchQ symbols⟩,
    ⟨rfl, batchLoop_eq_filterMap fetchR symbols⟩,
    ⟨rfl, batchLoop_eq_filterMap fetchR symbols⟩⟩

/-- C8: requesting any tiingo-prefixed market with no configured token makes
    `NewMarketList` fail validation and return before any HTTP request: the
    request trace is empty and the result is the "invalid market" error,
    whatever the upstream would have answered. -/
theorem C8_tiingo_no_token_no_network (market token : String) (resp : DecodedResponses)
    (hpre : goStarts market "tiingo" = true) (htok : token = "") :
    (newMarketList market token resp).1 = [] ∧
      (newMarketList market token resp).2 = .error "invalid market" := by
  have hv : validMarket market token = false := by
    simp [validMarket, hpre, htok]
  simp [newMarketList, hv]

/-- C8 witness: the concrete scenario — market `tiingo-btc`, empty token. -/
theorem C8_tiingo_no_token_no_network_witness :
    (newMarketList "tiingo-btc" "" ⟨[], [], [], []⟩).1 = [] ∧
      (newMarketList "tiingo-btc" "" ⟨[], [], [], []⟩).2 = .error "invalid market" :=
  C8_tiingo_no_token_no_network "tiingo-btc" "" ⟨[], [], [], []⟩ (by decide) rfl

/-- C10: `NewQuoteFromCSVDateFormat` allocates its record with
    `NewQuote("", …)`, so whenever it returns a record its `Symbol` field is
    the empty string — the symbol argument is ignored — while
    `NewQuoteFromCSV` stores the supplied symbol. -/
theorem C10_dateformat_ignores_symbol (symbol csv format : String) :
    ((newQuoteFromCSVDateFormat symbol csv format).all fun q => q.symbol == "") = true ∧
      (newQuoteFromCSV symbol csv).symbol = symbol := by
  have key : ∀ (o : Option (List Bar)) (n : Nat),
      ((o.map (quoteOfBars "" n)).all fun q => q.symbol == "") = true := by
    intro o n; cases o <;> rfl
  exact ⟨key _ _, rfl⟩

/-- A fill loop writing source index `i` to destination `n - 1 - i`
    produces the reverse of the source order. -/
theorem range_map_rev_getD {α β : Type} (f : α → β) (d : α) (l : List α) :
    (List.range l.length).map (fun j => f (l.getD (l.length - 1 - j) d)) =
      (l.map f).reverse := by
  apply List.ext_getElem
  · simp
  · intro i h1 h2
    have hn : i < l.length := by simpa using h1
    have hk : l.length - 1 - i < l.length := by omega
    simp only [List.getElem_map, List.getElem_range, List.getElem_reverse,
      List.getD_eq_getElem?_getD, List.getElem?_eq_getElem hk, Option.getD_some,
      List.length_map]

/-- C2 counterexample: the Coinbase fill pass reverses blindly, so an
    upstream page whose timestamps arrive oldest-first (seconds 0 then 60)
    yields a *descending* date sequence — the output is not ascending for
    every upstream response. -/
theorem C2_ascending_counterexample :
    (coinbaseFillPage "BTC-USD"
        [⟨0, 1, 1, 1, 1, 1⟩, ⟨60, 1, 1, 1, 1, 1⟩]).date = [60, 0] ∧
      ¬ List.Sorted (· ≤ ·) (coinbaseFillPage "BTC-USD"
        [⟨0, 1, 1, 1, 1, 1⟩, ⟨60, 1, 1, 1, 1, 1⟩]).date := by
  decide

/-- C2 (amended): no adapter sorts; each fill pass either reverses the
    upstream order (Coinbase and Huobi, which write source index `i` to
    destination `n-1-i` because their upstreams answer newest-first) or
    preserves it verbatim (Kraken, Tiingo daily, Tiingo crypto).  The
    output date sequence is therefore ascending exactly when the upstream
    page is newest-first for the reversing adapters, resp. oldest-first for
    the order-preserving ones — not for every upstream response. -/
theorem C2_adapter_date_order :
    (∀ (sym : String) (bars : List CoinbaseBar),
      (coinbaseFillPage sym bars).date =
        (bars.map fun b => goInt64OfFloat b.t).reverse) ∧
    (∀ (sym : String) (bars : List CoinbaseBar),
      List.Sorted (· ≥ ·) (bars.map fun b => goInt64OfFloat b.t) →
        List.Sorted (· ≤ ·) (coinbaseFillPage sym bars).date) ∧
    (∀ (sym : String) (bars : List HuobiBar),
      (huobiFill sym bars).date = (bars.map HuobiBar.id).reverse) ∧
    (∀ (sym : String) (bars : List HuobiBar),
      List.Sorted (· ≥ ·) (bars.map HuobiBar.id) →
        List.Sorted (· ≤ ·) (huobiFill sym bars).date) ∧
    (∀ (sym : String) (bars : List KrakenBar),
      (krakenFill sym bars).date = bars.map fun b => goInt64OfFloat b.t) ∧
    (∀ (sym : String) (bars : List KrakenBar),
      List.Sorted (· ≤ ·) (bars.map fun b => goInt64OfFloat b.t) →
        List.Sorted (· ≤ ·) (krakenFill sym bars).date) ∧
    (∀ (sym : String) (rows : List TiingoDailyRow),
      (tiingoDailyFill sym rows).date = rows.map fun r => goTimeParseDate10 r.date) ∧
    (∀ (sym : String) (rows : List TiingoCryptoRow),
      (tiingoCryptoFill sym rows).date =
        rows.map fun r => (parseRFC3339Chars r.date.toList).getD zeroDateTime) := by
  have hcb : ∀ (sym : String) (bars : List CoinbaseBar),
      (coinbaseFillPage sym bars).date =
        (bars.map fun b => goInt64OfFloat b.t).reverse := by
    intro sym bars
    simpa [coinbaseFillPage] using
      range_map_rev_getD (fun b => goInt64OfFloat b.t) ⟨0, 0, 0, 0, 0, 0⟩ bars
  have hhu : ∀ (sym : String) (bars : List HuobiBar),
      (huobiFill sym bars).date = (bars.map HuobiBar.id).reverse := by
    intro sym bars
    simpa [huobiFill] using
      range_map_rev_getD HuobiBar.id ⟨0, 0, 0, 0, 0, 0, 0, 0⟩ bars
  refine ⟨hcb, fun sym bars h => ?_, hhu, fun sym bars h => ?_,
    fun sym bars => rfl, fun sym bars h => h, fun sym rows => rfl, fun sym rows => rfl⟩
  · rw [hcb]
    exact List.pairwise_reverse.mpr h
  · rw [hhu]
    exact List.pairwise_reverse.mpr h

/-- C2 witness: concrete newest-first Coinbase and Huobi pages and a
    concrete oldest-first Kraken page all yield ascending dates. -/
theorem C2_adapter_date_order_witness :
    List.Sorted (· ≤ ·) (coinbaseFillPage "BTC-USD"
        [⟨120, 1, 1, 1, 1, 1⟩, ⟨60, 1, 1, 1, 1, 1⟩, ⟨0, 1, 1, 1, 1, 1⟩]).date ∧
    List.Sorted (· ≤ ·) (huobiFill "btcusdt"
        [⟨120, 1, 1, 1, 1, 1, 1, 1⟩, ⟨60, 1, 1, 1, 1, 1, 1, 1⟩]).date ∧
    List.Sorted (· ≤ ·) (krakenFill "XXBTZUSD"
        [⟨0, "1", "1", "1", "1", "1", "1", 1⟩, ⟨60, "1", "1", "1", "1", "1", "1", 1⟩]).date :=
  ⟨C2_adapter_date_order.2.1 "BTC-USD" _ (by decide),
    C2_adapter_date_order.2.2.2.1 "btcusdt" _ (by decide),
    C2_adapter_date_order.2.2.2.2.2.1 "XXBTZUSD" _ (by decide)⟩

/-- All six sequences of a `Quote` have the same length. -/
def Quote.lensOk (q : Quote) : Prop :=
  q.date.length = q.close.length ∧ q.open_.length = q.close.length ∧
    q.high.length = q.close.length ∧ q.low.length = q.close.length ∧
    q.volume.length = q.close.length

instance (q : Quote) : Decidable q.lensOk := by unfold Quote.lensOk; infer_instance

/-- All six sequences of a `RawQuote` have the same length. -/
def RawQuote.lensOk (q : RawQuote) : Prop :=
  q.date.length = q.close.length ∧ q.open_.length = q.close.length ∧
    q.high.length = q.close.length ∧ q.low.length = q.close.length ∧
    q.volume.length = q.close.length

instance (q : RawQuote) : Decidable q.lensOk := by unfold RawQuote.lensOk; infer_instance

/-- Appending two length-balanced records is length-balanced. -/
theorem rawAppend_lensOk {a q : RawQuote} (ha : a.lensOk) (hq : q.lensOk) :
    (rawAppend a q).lensOk := by
  obtain ⟨h1, h2, h3, h4, h5⟩ := ha
  obtain ⟨g1, g2, g3, g4, g5⟩ := hq
  refine ⟨?_, ?_, ?_, ?_, ?_⟩ <;> simp [rawAppend, *]

/-- The Coinbase page fill is length-balanced. -/
theorem coinbaseFillPage_lensOk (sym : String) (bars : List CoinbaseBar) :
    (coinbaseFillPage sym bars).lensOk := by
  refine ⟨?_, ?_, ?_, ?_, ?_⟩ <;> simp [coinbaseFillPage]

/-- The Huobi fill is length-balanced. -/
theorem huobiFill_lensOk (sym : String) (bars : List HuobiBar) :
    (huobiFill sym bars).lensOk := by
  refine ⟨?_, ?_, ?_, ?_, ?_⟩ <;> simp [huobiFill]

/-- The Coinbase paging loop keeps the record length-balanced. -/
theorem coinbaseLoop_lensOk (sym : String) (acc : RawQuote) (ha : acc.lensOk) :
    ∀ pages : List CoinbasePage, (coinbaseLoop sym acc pages).1.lensOk
  | [] => ha
  | .neterr :: _ => by
    simp [coinbaseLoop, rawNewQuote, RawQuote.lensOk]
  | .badjson :: rest =>
    coinbaseLoop_lensOk sym _ (rawAppend_lensOk ha (coinbaseFillPage_lensOk sym [])) rest
  | .ok bars :: rest =>
    coinbaseLoop_lensOk sym _ (rawAppend_lensOk ha (coinbaseFillPage_lensOk sym bars)) rest

/-- C3 (amended): every provider adapter keeps the six sequences at equal
    lengths on every input, including error and empty-result paths, and so
    do `NewQuote` and the CSV parser.  (`NewQuoteFromJSON`, by contrast, can
    return a mismatched record — see the counterexample.) -/
theorem C3_adapter_lengths_balanced :
    (∀ (sym : String) (n : Nat), (newQuote sym n).lensOk) ∧
    (∀ (sym : String) (pages : List CoinbasePage),
      (newQuoteFromCoinbase sym pages).1.lensOk) ∧
    (∀ (sym : String) (resp : KrakenResp), (newQuoteFromKraken sym resp).1.lensOk) ∧
    (∀ (sym : String) (resp : HuobiResp), (newQuoteFromHuobi sym resp).1.lensOk) ∧
    (∀ (sym : String) (resp : TiingoDailyResp), (tiingoDaily sym resp).1.lensOk) ∧
    (∀ (sym : String) (resp : TiingoCryptoResp), (tiingoCrypto sym resp).1.lensOk) ∧
    (∀ (sym csv : String), (newQuoteFromCSV sym csv).lensOk) := by
  have hnewQ : ∀ (sym : String) (n : Nat), (newQuote sym n).lensOk := by
    intro sym n
    refine ⟨?_, ?_, ?_, ?_, ?_⟩ <;> simp [newQuote]
  have hempty : ∀ sym : String, RawQuote.lensOk ⟨sym, [], [], [], [], [], []⟩ := by
    intro sym
    exact ⟨rfl, rfl, rfl, rfl, rfl⟩
  have hkrakenFill : ∀ (sym : String) (bars : List KrakenBar), (krakenFill sym bars).lensOk := by
    intro sym bars
    refine ⟨?_, ?_, ?_, ?_, ?_⟩ <;> simp [krakenFill]
  have hraw0 : ∀ sym : String, (rawNewQuote sym 0).lensOk := by
    intro sym
    refine ⟨?_, ?_, ?_, ?_, ?_⟩ <;> simp [rawNewQuote]
  refine ⟨hnewQ, ?_, ?_, ?_, ?_, ?_, ?_⟩
  · intro sym pages
    exact coinbaseLoop_lensOk sym _ (hempty sym) pages
  · intro sym resp
    cases resp with
    | neterr => exact hraw0 ""
    | badjson => exact hraw0 ""
    | notfound => exact hraw0 ""
    | ok bars => exact rawAppend_lensOk (hempty sym) (hkrakenFill sym bars)
  · intro sym resp
    cases resp with
    | neterr => exact hraw0 ""
    | badjson => exact rawAppend_lensOk (hempty sym) (huobiFill_lensOk sym [])
    | ok bars => exact rawAppend_lensOk (hempty sym) (huobiFill_lensOk sym bars)
  · intro sym resp
    cases resp with
    | neterr => exact hnewQ "" 0
    | badjson => exact hnewQ "" 0
    | notfound => exact hnewQ "" 0
    | otherStatus => refine ⟨?_, ?_, ?_, ?_, ?_⟩ <;> simp [tiingoDaily, tiingoDailyFill]
    | ok rows => refine ⟨?_, ?_, ?_, ?_, ?_⟩ <;> simp [tiingoDaily, tiingoDailyFill]
  · intro sym resp
    cases resp with
    | neterr => exact hnewQ "" 0
    | badjson => exact hnewQ "" 0
    | nodata => exact hnewQ "" 0
    | ok rows => refine ⟨?_, ?_, ?_, ?_, ?_⟩ <;> simp [tiingoCrypto, tiingoCryptoFill]
  · intro sym csv
    refine ⟨?_, ?_, ?_, ?_, ?_⟩ <;> simp [newQuoteFromCSV, quoteOfBars]

/-- C3 counterexample: `NewQuoteFromJSON` is an operation of the library
    that *can* produce a Record with mismatched sequence lengths —
    `json.Unmarshal` copies each present array verbatim with no cross-field
    check, so the JSON object `{"open":[1.0]}` decodes (no error) to a
    record with one open value and zero of everything else. -/
theorem C3_json_mismatch_counterexample :
    newQuoteFromJSON ⟨none, none, some [1], none, none, none, none⟩ =
        some ⟨"", 0, [], [1], [], [], [], []⟩ ∧
      ¬ Quote.lensOk ⟨"", 0, [], [1], [], [], [], []⟩ := by
  decide

/-- Collection CSV with non-contiguous rows for symbol `spy` (rows 1 and 3)
    and a `qqq` row in between; no trailing newline (a trailing newline
    makes `NewQuotesFromCSV` panic outright on the empty last row). -/
def csvColl : String :=
  "symbol,datetime,open,high,low,close,volume\nspy,2021-01-01 00:00,1.00,1.00,1.00,1.00,1.00\nqqq,2021-01-02 00:00,2.00,2.00,2.00,2.00,2.00\nspy,2021-01-03 00:00,3.00,3.00,3.00,3.00,3.00"

/-- C5 failing input, evaluated: the first scan counts spy = 2, qqq = 1
    correctly, but the fill loop hands out *consecutive* input rows to the
    symbols in map-iteration order without ever checking the row's own
    symbol column.  Under either possible iteration order of the two-entry
    map, some record receives a bar from a row bearing the other symbol
    (correct grouping would be spy = Jan 1 + Jan 3, qqq = Jan 2). -/
theorem C5_grouping_wrong_rows :
    symCounts ((splitChar '\n' csvColl.toList).drop 1) = [("spy", 2), ("qqq", 1)] ∧
    (newQuotesFromCSVWith [("spy", 2), ("qqq", 1)] csvColl).map
        (List.map fun q => (q.symbol, q.date)) =
      some [("spy", [⟨2021, 1, 1, 0, 0, 0⟩, ⟨2021, 1, 2, 0, 0, 0⟩]),
        ("qqq", [⟨2021, 1, 3, 0, 0, 0⟩])] ∧
    (newQuotesFromCSVWith [("qqq", 1), ("spy", 2)] csvColl).map
        (List.map fun q => (q.symbol, q.date)) =
      some [("qqq", [⟨2021, 1, 1, 0, 0, 0⟩]),
        ("spy", [⟨2021, 1, 2, 0, 0, 0⟩, ⟨2021, 1, 3, 0, 0, 0⟩])] := by
  set_option maxRecDepth 4096 in decide

/-- The byte-lexicographic order is total. -/
theorem listLeCh_total : ∀ as bs : List Char,
    listLeCh as bs = true ∨ listLeCh bs as = true
  | [], _ => Or.inl rfl
  | _ :: _, [] => Or.inr rfl
  | a :: as, b :: bs => by
    rcases Nat.lt_trichotomy a.toNat b.toNat with h | h | h
    · exact Or.inl (by simp [listLeCh, h])
    · rcases listLeCh_total as bs with ih | ih
      · exact Or.inl (by simp only [listLeCh]; rw [if_neg (by omega), if_neg (by omega)]; exact ih)
      · exact Or.inr (by simp only [listLeCh]; rw [if_neg (by omega), if_neg (by omega)]; exact ih)
    · exact Or.inr (by simp [listLeCh, h])

/-- The byte-lexicographic order is transitive. -/
theorem listLeCh_trans : ∀ as bs cs : List Char,
    listLeCh as bs = true → listLeCh bs cs = true → listLeCh as cs = true
  | [], _, _, _, _ => rfl
  | _ :: _, [], _, h1, _ => by simp [listLeCh] at h1
  | _ :: _, _ :: _, [], _, h2 => by simp [listLeCh] at h2
  | a :: as, b :: bs, c :: cs, h1, h2 => by
    simp only [listLeCh] at h1 h2 ⊢
    rcases Nat.lt_trichotomy a.toNat b.toNat with hab | hab | hab
    · rcases Nat.lt_trichotomy b.toNat c.toNat with hbc | hbc | hbc
      · rw [if_pos (by omega)]
      · rw [if_pos (by omega)]
      · rw [if_neg (by omega), if_pos (by omega)] at h2
        exact absurd h2 (by simp)
    · rw [if_neg (by omega), if_neg (by omega)] at h1
      rcases Nat.lt_trichotomy b.toNat c.toNat with hbc | hbc | hbc
      · rw [if_pos (by omega)]
      · rw [if_neg (by omega), if_neg (by omega)]
        rw [if_neg (by omega), if_neg (by omega)] at h2
        exact listLeCh_trans as bs cs h1 h2
      · rw [if_neg (by omega), if_pos (by omega)] at h2
        exact absurd h2 (by simp)
    · rw [if_neg (by omega), if_pos (by omega)] at h1
      exact absurd h1 (by simp)

instance : IsTotal String strLeRel :=
  ⟨fun a b => listLeCh_total a.toList b.toList⟩

instance : IsTrans String strLeRel :=
  ⟨fun a b c => listLeCh_trans a.toList b.toList c.toList⟩

/-- `sort.Strings` output is sorted. -/
theorem sortStrings_sorted (l : List String) : List.Sorted strLeRel (sortStrings l) :=
  List.sorted_insertionSort strLeRel l

/-- A filter that keeps each element's ticker or drops it yields a sublist
    of the tickers, in order. -/
theorem filterMap_ticker_sublist (f : TiingoMktSym → Option String)
    (hf : ∀ m, f m = none ∨ f m = some m.ticker) :
    ∀ mkts : List TiingoMktSym,
      (mkts.filterMap f).Sublist (mkts.map TiingoMktSym.ticker)
  | [] => List.Sublist.refl _
  | m :: rest => by
    rcases hf m with h | h <;> simp only [List.filterMap_cons, h, List.map_cons]
    · exact (filterMap_ticker_sublist f hf rest).cons _
    · exact (filterMap_ticker_sublist f hf rest).cons₂ _

/-- The tiingo market filter keeps tickers verbatim, in upstream order. -/
theorem getTiingoCryptoMarket_sublist (market : String) (mkts : List TiingoMktSym) :
    (getTiingoCryptoMarket market mkts).Sublist (mkts.map TiingoMktSym.ticker) := by
  apply filterMap_ticker_sublist
  intro m
  dsimp only
  split
  · exact Or.inr rfl
  · split
    · exact Or.inr rfl
    · split
      · exact Or.inr rfl
      · exact Or.inl rfl

/-- Equality on `Except` values is decidable (used to evaluate
    `NewMarketList` results in concrete statements). -/
instance {ε α : Type} [DecidableEq ε] [DecidableEq α] : DecidableEq (Except ε α) := fun x y =>
  match x, y with
  | .ok a, .ok b =>
    if h : a = b then isTrue (by rw [h]) else isFalse (fun he => by cases he; exact h rfl)
  | .error a, .error b =>
    if h : a = b then isTrue (by rw [h]) else isFalse (fun he => by cases he; exact h rfl)
  | .ok _, .error _ => isFalse (fun he => by cases he)
  | .error _, .ok _ => isFalse (fun he => by cases he)

/-- C7 (amended): the Nasdaq-family fetchers return lowercased, sorted
    lists; the Coinbase fetcher sorts but keeps the (uppercase) product ids
    verbatim; the tiingo crypto fetcher neither sorts nor lowercases — it
    returns matching tickers verbatim in upstream order. -/
theorem C7_market_list_case_and_sort :
    (∀ (market : String) (rows : List NasdaqRow),
      List.Sorted strLeRel (getNasdaqMarket market rows) ∧
        ∀ s ∈ getNasdaqMarket market rows, ∃ r ∈ rows, s = goToLower r.symbol) ∧
    (∀ (market : String) (rows : List NasdaqRow),
      List.Sorted strLeRel (getNasdaq100Market market rows) ∧
        ∀ s ∈ getNasdaq100Market market rows, ∃ r ∈ rows, s = goToLower r.symbol) ∧
    (∀ (market : String) (mkts : List CoinbaseProduct),
      List.Sorted strLeRel (getCoinbaseMarket market mkts)) ∧
    (∀ (market : String) (mkts : List TiingoMktSym),
      (getTiingoCryptoMarket market mkts).Sublist (mkts.map TiingoMktSym.ticker)) := by
  have hmem : ∀ (rows : List NasdaqRow) (s : String),
      s ∈ sortStrings (rows.map fun row => goToLower row.symbol) →
        ∃ r ∈ rows, s = goToLower r.symbol := by
    intro rows s hs
    have : s ∈ rows.map fun row => goToLower row.symbol :=
      (List.mem_insertionSort strLeRel).mp hs
    obtain ⟨r, hr, he⟩ := List.mem_map.mp this
    exact ⟨r, hr, he.symm⟩
  exact ⟨fun market rows => ⟨sortStrings_sorted _, hmem rows⟩,
    fun market rows => ⟨sortStrings_sorted _, hmem rows⟩,
    fun market mkts => sortStrings_sorted _,
    fun market mkts => getTiingoCryptoMarket_sublist market mkts⟩

/-- C7 counterexample: `NewMarketList` output is not always lowercased and
    sorted.  A tiingo market request returns the upstream ticker order
    unsorted, and a coinbase request returns uppercase product ids. -/
theorem C7_market_list_counterexample :
    (newMarketList "tiingo-btc" "tok"
        ⟨[⟨"zrxbtc", "", "zrx", "btc"⟩, ⟨"adabtc", "", "ada", "btc"⟩], [], [], []⟩).2 =
      .ok ["zrxbtc", "adabtc"] ∧
    ¬ List.Sorted strLeRel ["zrxbtc", "adabtc"] ∧
    (newMarketList "coinbase" "tok" ⟨[], [⟨"BTC-USD", false⟩], [], []⟩).2 =
      .ok ["BTC-USD"] ∧
    "BTC-USD" ≠ goToLower "BTC-USD" := by
  decide

/-! Digit-level lemmas for the serialization round trip (claim C1). -/

/-- Reading back a digit character recovers the digit. -/
theorem charDigitVal_digitChar {k : Nat} (hk : k < 10) :
    charDigitVal (Nat.digitChar k) = some k := by
  interval_cases k <;> decide

/-- Digit characters are digits. -/
theorem isDigitCh_digitChar {k : Nat} (hk : k < 10) :
    isDigitCh (Nat.digitChar k) = true := by
  simp [isDigitCh, charDigitVal_digitChar hk]

/-- Digit characters are none of the separator/sign characters the CSV
    machinery splits on. -/
theorem digitChar_ne_sep {k : Nat} (hk : k < 10) :
    Nat.digitChar k ∉ (['\n', ',', '.', '+', '-', ':', ' ', 'T', 'Z'] : List Char) := by
  interval_cases k <;> decide

/-- The fuel-driven digit extraction agrees with `Nat.digits 10`. -/
theorem natDigitsRevFuel_eq_digits : ∀ fuel n, n ≤ fuel →
    natDigitsRevFuel fuel n = Nat.digits 10 n
  | 0, 0, _ => by simp [natDigitsRevFuel]
  | fuel + 1, 0, _ => by simp [natDigitsRevFuel]
  | fuel + 1, m + 1, h => by
    rw [natDigitsRevFuel, Nat.digits_def' (by norm_num : (1 : Nat) < 10) (Nat.succ_pos m)]
    have hdiv : (m + 1) / 10 ≤ fuel := by
      have := Nat.div_lt_self (Nat.succ_pos m) (by norm_num : (1 : Nat) < 10)
      omega
    rw [natDigitsRevFuel_eq_digits fuel ((m + 1) / 10) hdiv]

/-- `natDigitsRev` computes `Nat.digits 10`. -/
theorem natDigitsRev_eq_digits (n : Nat) : natDigitsRev n = Nat.digits 10 n :=
  natDigitsRevFuel_eq_digits n n (Nat.le_refl n)

/-- The decimal rendering is never empty. -/
theorem natReprChars_ne_nil (n : Nat) : natReprChars n ≠ [] := by
  unfold natReprChars
  split
  · simp
  · next h =>
    rw [natDigitsRev_eq_digits]
    simp [Nat.digits_ne_nil_iff_ne_zero.mpr h]

/-- Every character of a decimal rendering is a digit character with a
    digit value below 10. -/
theorem mem_natReprChars {c : Char} {n : Nat} (hc : c ∈ natReprChars n) :
    ∃ k, k < 10 ∧ c = Nat.digitChar k := by
  unfold natReprChars at hc
  split at hc
  · refine ⟨0, by omega, ?_⟩
    simpa using hc
  · rw [natDigitsRev_eq_digits] at hc
    obtain ⟨k, hk, he⟩ := List.mem_map.mp hc
    exact ⟨k, Nat.digits_lt_base (by norm_num) (List.mem_reverse.mp hk), he.symm⟩

/-- The generalized fold computing `digitsVal` from an accumulator. -/
theorem digitsVal_foldl_from : ∀ (l : List Char) (acc : Nat),
    l.foldl (fun a c => 10 * a + (charDigitVal c).getD 0) acc =
      acc * 10 ^ l.length + digitsVal l
  | [], acc => by simp [digitsVal]
  | c :: t, acc => by
    have h1 := digitsVal_foldl_from t (10 * acc + (charDigitVal c).getD 0)
    have h2 := digitsVal_foldl_from t (10 * 0 + (charDigitVal c).getD 0)
    simp only [digitsVal, List.foldl_cons] at *
    rw [h1, h2]
    simp only [List.length_cons, pow_succ]
    ring

/-- Appending digit strings multiplies the leading value by the length of
    the suffix. -/
theorem digitsVal_append (a b : List Char) :
    digitsVal (a ++ b) = digitsVal a * 10 ^ b.length + digitsVal b := by
  unfold digitsVal
  rw [List.foldl_append]
  exact digitsVal_foldl_from b _

/-- Leading zeros do not change the value. -/
theorem digitsVal_replicate_zero (k : Nat) (b : List Char) :
    digitsVal (List.replicate k '0' ++ b) = digitsVal b := by
  rw [digitsVal_append]
  have : digitsVal (List.replicate k '0') = 0 := by
    induction k with
    | zero => rfl
    | succ m ih =>
      have hstep : digitsVal (List.replicate (m + 1) '0') =
          digitsVal (List.replicate m '0') := rfl
      rw [hstep, ih]
  rw [this]
  ring

/-- Reading back a most-significant-first digit rendering gives
    `Nat.ofDigits`. -/
theorem digitsVal_rev_map_digits : ∀ ds : List Nat, (∀ d ∈ ds, d < 10) →
    digitsVal ((ds.reverse).map Nat.digitChar) = Nat.ofDigits 10 ds
  | [], _ => rfl
  | d :: ds, h => by
    have hd : d < 10 := h d (List.mem_cons_self d ds)
    have hds : ∀ x ∈ ds, x < 10 := fun x hx => h x (List.mem_cons_of_mem d hx)
    rw [List.reverse_cons, List.map_append, List.map_cons, List.map_nil,
      digitsVal_append, digitsVal_rev_map_digits ds hds]
    have hone : digitsVal ([Nat.digitChar d]) = d := by
      simp [digitsVal, charDigitVal_digitChar hd]
    rw [hone, Nat.ofDigits_cons]
    simp only [List.length_cons, List.length_nil, pow_one]
    ring

/-- The decimal rendering round-trips through `digitsVal`. -/
theorem digitsVal_natReprChars (n : Nat) : digitsVal (natReprChars n) = n := by
  unfold natReprChars
  split
  · next h => simp [h, digitsVal, charDigitVal]
  · rw [natDigitsRev_eq_digits,
      digitsVal_rev_map_digits _ (fun d hd => Nat.digits_lt_base (by norm_num) hd),
      Nat.ofDigits_digits]

/-- Every character of a decimal rendering passes the digit check. -/
theorem natReprChars_all_digits (n : Nat) : (natReprChars n).all isDigitCh = true := by
  rw [List.all_eq_true]
  intro c hc
  obtain ⟨k, hk, rfl⟩ := mem_natReprChars hc
  exact isDigitCh_digitChar hk

/-- Decimal renderings contain no separator/sign characters. -/
theorem natReprChars_no_sep {c : Char} {n : Nat}
    (hsep : c ∈ (['\n', ',', '.', '+', '-', ':', ' ', 'T', 'Z'] : List Char)) :
    c ∉ natReprChars n := by
  intro hc
  obtain ⟨k, hk, rfl⟩ := mem_natReprChars hc
  exact digitChar_ne_sep hk hsep

/-- A value below `10 ^ p` renders in at most `p` digits (for positive `p`). -/
theorem natReprChars_len_le {n p : Nat} (hp : 0 < p) (hn : n < 10 ^ p) :
    (natReprChars n).length ≤ p := by
  unfold natReprChars
  split
  · simpa using hp
  · next h =>
    rw [natDigitsRev_eq_digits]
    simp only [List.length_map, List.length_reverse]
    rw [Nat.digits_len 10 n (by norm_num) h]
    have := (Nat.lt_pow_iff_log_lt (by norm_num : 1 < 10) h).mp hn
    omega

/-- `splitChar` never returns an empty list of groups. -/
theorem splitChar_ne_nil (c : Char) : ∀ l, splitChar c l ≠ []
  | [] => by simp [splitChar]
  | ch :: rest => by
    rcases h : splitChar c rest with _ | ⟨g, gs⟩
    · simp [splitChar, h]
    · simp only [splitChar, h]
      split <;> simp

/-- Splitting a separator-free string returns it whole. -/
theorem splitChar_not_mem {c : Char} : ∀ {a : List Char}, c ∉ a → splitChar c a = [a]
  | [], _ => rfl
  | ch :: t, h => by
    have hch : ¬(ch = c) := fun he => h (he ▸ List.mem_cons_self ch t)
    have ht : c ∉ t := fun hm => h (List.mem_cons_of_mem ch hm)
    simp only [splitChar, splitChar_not_mem ht]
    simp [hch]

/-- Splitting peels off a separator-free first field. -/
theorem splitChar_sep {c : Char} : ∀ {a : List Char} (b : List Char), c ∉ a →
    splitChar c (a ++ c :: b) = a :: splitChar c b
  | [], b, _ => by
    simp only [List.nil_append]
    rcases h : splitChar c b with _ | ⟨g, gs⟩
    · exact absurd h (splitChar_ne_nil c b)
    · simp [splitChar, h]
  | ch :: t, b, h => by
    have hch : ¬(ch = c) := fun he => h (he ▸ List.mem_cons_self ch t)
    have ht : c ∉ t := fun hm => h (List.mem_cons_of_mem ch hm)
    have ih := splitChar_sep (a := t) b ht
    rw [List.cons_append]
    simp only [splitChar, ih]
    simp [hch]

/-- Rounding an integer-valued rational is exact. -/
theorem roundHE_intCast (m : Int) : roundHE ((m : ℚ)) = m := by
  unfold roundHE
  rw [Rat.intCast_num, Rat.intCast_den]
  simp [Int.fdiv_one]

/-- `scalePow10` is multiplication by `10 ^ p`. -/
theorem scalePow10_val (p : Nat) (x : ℚ) : scalePow10 p x = x * 10 ^ p := by
  unfold scalePow10
  rw [Rat.mkRat_eq_div]
  push_cast
  conv_rhs => rw [← Rat.num_div_den x]
  ring

/-- `qabs` on a nonnegative rational. -/
theorem qabs_of_nonneg {x : ℚ} (h : 0 ≤ x.num) : qabs x = x := by
  unfold qabs
  rw [Int.natAbs_of_nonneg h, Rat.mkRat_eq_div]
  exact Rat.num_div_den x

/-- `qabs` on a negative rational. -/
theorem qabs_of_neg {x : ℚ} (h : x.num < 0) : qabs x = -x := by
  unfold qabs
  have hcast : ((x.num.natAbs : Int) : ℚ) = -(x.num : ℚ) := by
    rw [Int.ofNat_natAbs_of_nonpos (Int.le_of_lt h)]
    push_cast
    ring
  rw [Rat.mkRat_eq_div, hcast, neg_div, Rat.num_div_den]

/-- Parsing the fixed-precision body recovers the scaled value exactly. -/
theorem parseUnsigned_fixedBody (p m : Nat) :
    parseUnsignedChars (fixedBodyChars p m) = some ((m : ℚ) / 10 ^ p) := by
  by_cases hp : p = 0
  · subst hp
    have hbody : fixedBodyChars 0 m = natReprChars m := by
      simp [fixedBodyChars]
    have hsplit0 : splitChar '.' (natReprChars m) = [natReprChars m] :=
      splitChar_not_mem (natReprChars_no_sep (by decide))
    rw [hbody]
    simp only [parseUnsignedChars, hsplit0]
    rw [if_pos ⟨natReprChars_ne_nil m, natReprChars_all_digits m⟩]
    rw [digitsVal_natReprChars, Rat.mkRat_eq_div]
    norm_num
  · have hppos : 0 < p := Nat.pos_of_ne_zero hp
    have hbody : fixedBodyChars p m =
        natReprChars (m / 10 ^ p) ++ '.' ::
          (List.replicate (p - (natReprChars (m % 10 ^ p)).length) '0' ++
            natReprChars (m % 10 ^ p)) := by
      simp [fixedBodyChars, hp]
    have hdotA : '.' ∉ natReprChars (m / 10 ^ p) := natReprChars_no_sep (by decide)
    have hdotB : '.' ∉ List.replicate (p - (natReprChars (m % 10 ^ p)).length) '0' ++
        natReprChars (m % 10 ^ p) := by
      intro hc
      rcases List.mem_append.mp hc with h | h
      · exact absurd (List.eq_of_mem_replicate h) (by decide)
      · exact natReprChars_no_sep (by decide) h
    have hsplit : splitChar '.' (fixedBodyChars p m) =
        [natReprChars (m / 10 ^ p),
          List.replicate (p - (natReprChars (m % 10 ^ p)).length) '0' ++
            natReprChars (m % 10 ^ p)] := by
      rw [hbody, splitChar_sep _ hdotA, splitChar_not_mem hdotB]
    have hmod : m % 10 ^ p < 10 ^ p := Nat.mod_lt m (Nat.pos_pow_of_pos p (by norm_num))
    have hlen : (natReprChars (m % 10 ^ p)).length ≤ p := natReprChars_len_le hppos hmod
    have hBlen : (List.replicate (p - (natReprChars (m % 10 ^ p)).length) '0' ++
        natReprChars (m % 10 ^ p)).length = p := by
      simp only [List.length_append, List.length_replicate]
      omega
    have hBdig : (List.replicate (p - (natReprChars (m % 10 ^ p)).length) '0' ++
        natReprChars (m % 10 ^ p)).all isDigitCh = true := by
      simp only [List.all_append, Bool.and_eq_true]
      refine ⟨?_, natReprChars_all_digits _⟩
      rw [List.all_eq_true]
      intro c hc
      rw [List.eq_of_mem_replicate hc]
      rfl
    have hBval : digitsVal (List.replicate (p - (natReprChars (m % 10 ^ p)).length) '0' ++
        natReprChars (m % 10 ^ p)) = m % 10 ^ p := by
      rw [digitsVal_replicate_zero, digitsVal_natReprChars]
    simp only [parseUnsignedChars, hsplit]
    rw [if_pos ⟨Or.inl (natReprChars_ne_nil _), natReprChars_all_digits _, hBdig⟩]
    rw [digitsVal_natReprChars, hBval, hBlen, Rat.mkRat_eq_div]
    congr 1
    rw [div_eq_div_iff (by positivity) (by positivity)]
    push_cast
    have hdm : m / 10 ^ p * 10 ^ p + m % 10 ^ p = m := by
      rw [Nat.mul_comm]
      exact Nat.div_add_mod m (10 ^ p)
    exact_mod_cast congrArg (fun t : Nat => t * 10 ^ p) hdm

/-- A fixed-precision body starts with a digit, never a sign. -/
theorem fixedBody_not_sign (p m : Nat) (t : List Char) :
    fixedBodyChars p m ≠ '+' :: t ∧ fixedBodyChars p m ≠ '-' :: t := by
  obtain ⟨c, cs, hc⟩ := List.exists_cons_of_ne_nil (natReprChars_ne_nil (m / 10 ^ p))
  have hcmem : c ∈ natReprChars (m / 10 ^ p) := hc ▸ List.mem_cons_self c cs
  constructor
  · intro he
    simp only [fixedBodyChars, hc, List.cons_append] at he
    injection he with h1 _
    subst h1
    exact natReprChars_no_sep (by decide) hcmem
  · intro he
    simp only [fixedBodyChars, hc, List.cons_append] at he
    injection he with h1 _
    subst h1
    exact natReprChars_no_sep (by decide) hcmem

/-- `goParseFloatChars` without a leading sign parses the body directly. -/
theorem goParseFloat_of_not_sign {cs : List Char} (h1 : ∀ t, cs ≠ '+' :: t)
    (h2 : ∀ t, cs ≠ '-' :: t) : goParseFloatChars cs = (parseUnsignedChars cs).getD 0 := by
  unfold goParseFloatChars
  split
  · exact absurd rfl (h1 _)
  · exact absurd rfl (h2 _)
  · rfl

/-- The fixed-precision rendering of a representable value parses back to
    exactly that value: the `%.*f` / `ParseFloat` round trip is lossless on
    multiples of `10 ^ -p`. -/
theorem parseFloat_roundTrip (p : Nat) (k : Int) :
    goParseFloatChars (formatFixedChars p ((k : ℚ) / 10 ^ p)) = (k : ℚ) / 10 ^ p := by
  have hpow : (0 : ℚ) < 10 ^ p := by positivity
  by_cases hk : 0 ≤ k
  · have hx : (0 : ℚ) ≤ (k : ℚ) / 10 ^ p := div_nonneg (by exact_mod_cast hk) (le_of_lt hpow)
    have hnum : 0 ≤ ((k : ℚ) / 10 ^ p).num := Rat.num_nonneg.mpr hx
    have hscale : scalePow10 p (qabs ((k : ℚ) / 10 ^ p)) = ((k : Int) : ℚ) := by
      rw [qabs_of_nonneg hnum, scalePow10_val, div_mul_cancel₀]
      exact ne_of_gt hpow
    have hround : (roundHE (scalePow10 p (qabs ((k : ℚ) / 10 ^ p)))).toNat = k.toNat := by
      rw [hscale, roundHE_intCast]
    have hfmt : formatFixedChars p ((k : ℚ) / 10 ^ p) = fixedBodyChars p k.toNat := by
      unfold formatFixedChars
      rw [if_neg (not_lt.mpr hnum), hround, List.nil_append]
    rw [hfmt, goParseFloat_of_not_sign (fun t => (fixedBody_not_sign p k.toNat t).1)
      (fun t => (fixedBody_not_sign p k.toNat t).2), parseUnsigned_fixedBody]
    simp only [Option.getD_some]
    congr 1
    exact_mod_cast Int.toNat_of_nonneg hk
  · push_neg at hk
    have hxneg : (k : ℚ) / 10 ^ p < 0 := div_neg_of_neg_of_pos (by exact_mod_cast hk) hpow
    have hnum : ((k : ℚ) / 10 ^ p).num < 0 := by
      by_contra hcon
      push_neg at hcon
      exact absurd (Rat.num_nonneg.mp hcon) (not_le.mpr hxneg)
    have hscale : scalePow10 p (qabs ((k : ℚ) / 10 ^ p)) = ((-k : Int) : ℚ) := by
      rw [qabs_of_neg hnum, scalePow10_val, ← neg_div, div_mul_cancel₀]
      · push_cast
        ring
      · exact ne_of_gt hpow
    have hround : (roundHE (scalePow10 p (qabs ((k : ℚ) / 10 ^ p)))).toNat = (-k).toNat := by
      rw [hscale, roundHE_intCast]
    have hfmt : formatFixedChars p ((k : ℚ) / 10 ^ p) =
        '-' :: fixedBodyChars p (-k).toNat := by
      unfold formatFixedChars
      rw [if_pos hnum, hround]
      rfl
    rw [hfmt]
    simp only [goParseFloatChars]
    rw [parseUnsigned_fixedBody]
    simp only [Option.getD_some]
    show -((((-k).toNat : Nat) : ℚ) / 10 ^ p) = (k : ℚ) / 10 ^ p
    have hcast : (((-k).toNat : Nat) : ℚ) = ((-k : Int) : ℚ) := by
      exact_mod_cast Int.toNat_of_nonneg (le_of_lt (neg_pos.mpr hk))
    rw [hcast]
    push_cast
    ring

/-- A month never has more than 31 days. -/
theorem daysInMonth_le (y m : Nat) : daysInMonth y m ≤ 31 := by
  unfold daysInMonth
  split
  · split <;> omega
  · split <;> omega

/-- Two-digit field value recovery. -/
theorem val2q_pad2 (m : Nat) (hm : m ≤ 99) :
    val2q (Nat.digitChar (m / 10 % 10)) (Nat.digitChar (m % 10)) = some m := by
  have h1 : m / 10 % 10 < 10 := Nat.mod_lt _ (by norm_num)
  have h2 : m % 10 < 10 := Nat.mod_lt _ (by norm_num)
  simp only [val2q, charDigitVal_digitChar h1, charDigitVal_digitChar h2]
  have : 10 * (m / 10 % 10) + m % 10 = m := by omega
  rw [this]

/-- Four-digit field value recovery. -/
theorem val4q_pad4 (m : Nat) (hm : m ≤ 9999) :
    val4q (Nat.digitChar (m / 1000 % 10)) (Nat.digitChar (m / 100 % 10))
      (Nat.digitChar (m / 10 % 10)) (Nat.digitChar (m % 10)) = some m := by
  have h1 : m / 1000 % 10 < 10 := Nat.mod_lt _ (by norm_num)
  have h2 : m / 100 % 10 < 10 := Nat.mod_lt _ (by norm_num)
  have h3 : m / 10 % 10 < 10 := Nat.mod_lt _ (by norm_num)
  have h4 : m % 10 < 10 := Nat.mod_lt _ (by norm_num)
  simp only [val4q, charDigitVal_digitChar h1, charDigitVal_digitChar h2,
    charDigitVal_digitChar h3, charDigitVal_digitChar h4]
  have : 1000 * (m / 1000 % 10) + 100 * (m / 100 % 10) + 10 * (m / 10 % 10) + m % 10 = m := by
    omega
  rw [this]

/-- The minute-layout format/parse round trip truncates to minute
    precision and otherwise loses nothing, for any date Go's parser
    accepts. -/
theorem parseMinute_format {d : DateTime} (h : ValidDT d) :
    parseMinuteChars (formatMinuteChars d) = some (truncMin d) := by
  obtain ⟨y, mo, da, ho, mi, se⟩ := d
  dsimp only [ValidDT] at h
  obtain ⟨hy, hm1, hm2, hd1, hd2, hh, hmin, _⟩ := h
  simp only [formatMinuteChars, pad4, pad2, List.cons_append, List.nil_append]
  simp only [parseMinuteChars]
  rw [val4q_pad4 y (by omega), val2q_pad2 mo (by omega), val2q_pad2 da (by have := daysInMonth_le y mo; omega),
    val2q_pad2 ho (by omega), val2q_pad2 mi (by omega)]
  dsimp only
  rw [if_pos (by and_intros <;> first | trivial | assumption | omega)]
  rfl

/-- The RFC 3339 format/parse round trip is lossless for any valid UTC
    date (whole seconds). -/
theorem parseRFC3339_format {d : DateTime} (h : ValidDT d) :
    parseRFC3339Chars (rfc3339Chars d) = some d := by
  obtain ⟨y, mo, da, ho, mi, se⟩ := d
  dsimp only [ValidDT] at h
  obtain ⟨hy, hm1, hm2, hd1, hd2, hh, hmin, hsec⟩ := h
  simp only [rfc3339Chars, formatDateChars, pad4, pad2, List.cons_append, List.nil_append,
    List.append_assoc]
  simp only [parseRFC3339Chars]
  rw [val4q_pad4 y (by omega), val2q_pad2 mo (by omega), val2q_pad2 da (by have := daysInMonth_le y mo; omega),
    val2q_pad2 ho (by omega), val2q_pad2 mi (by omega), val2q_pad2 se (by omega)]
  dsimp only
  rw [if_pos (by and_intros <;> first | trivial | assumption | omega)]

/-- Characters of a two-digit field are digit characters. -/
theorem mem_pad2 {c : Char} {n : Nat} (h : c ∈ pad2 n) :
    ∃ k, k < 10 ∧ c = Nat.digitChar k := by
  simp only [pad2, List.mem_cons, List.not_mem_nil, or_false] at h
  rcases h with rfl | rfl
  · exact ⟨_, Nat.mod_lt _ (by norm_num), rfl⟩
  · exact ⟨_, Nat.mod_lt _ (by norm_num), rfl⟩

/-- Characters of a four-digit field are digit characters. -/
theorem mem_pad4 {c : Char} {n : Nat} (h : c ∈ pad4 n) :
    ∃ k, k < 10 ∧ c = Nat.digitChar k := by
  simp only [pad4, List.mem_cons, List.not_mem_nil, or_false] at h
  rcases h with rfl | rfl | rfl | rfl <;>
    exact ⟨_, Nat.mod_lt _ (by norm_num), rfl⟩

/-- Every character of a minute-layout date is a digit or one of
    `-`, space, `:`. -/
theorem mem_formatMinute {c : Char} {d : DateTime} (h : c ∈ formatMinuteChars d) :
    (∃ k, k < 10 ∧ c = Nat.digitChar k) ∨ c = '-' ∨ c = ' ' ∨ c = ':' := by
  simp only [formatMinuteChars, pad4, pad2, List.cons_append, List.nil_append,
    List.mem_cons, List.not_mem_nil, or_false] at h
  rcases h with h|h|h|h|h|h|h|h|h|h|h|h|h|h|h|h <;> subst h <;>
    first
      | exact Or.inl ⟨_, Nat.mod_lt _ (by norm_num), rfl⟩
      | exact Or.inr (Or.inl rfl)
      | exact Or.inr (Or.inr (Or.inl rfl))
      | exact Or.inr (Or.inr (Or.inr rfl))

/-- Every character of a fixed-precision number is a digit or one of
    `-`, `.`. -/
theorem mem_formatFixed {c : Char} {p : Nat} {x : ℚ} (h : c ∈ formatFixedChars p x) :
    (∃ k, k < 10 ∧ c = Nat.digitChar k) ∨ c = '-' ∨ c = '.' := by
  simp only [formatFixedChars, fixedBodyChars] at h
  rcases List.mem_append.mp h with h | h
  · split at h
    · simp only [List.mem_cons, List.not_mem_nil, or_false] at h
      exact Or.inr (Or.inl h)
    · exact absurd h (List.not_mem_nil c)
  · rcases List.mem_append.mp h with h | h
    · exact Or.inl (mem_natReprChars h)
    · split at h
      · exact absurd h (List.not_mem_nil c)
      · rcases List.mem_cons.mp h with rfl | h
        · exact Or.inr (Or.inr rfl)
        · rcases List.mem_append.mp h with h | h
          · rw [List.eq_of_mem_replicate h]
            exact Or.inl ⟨0, by omega, rfl⟩
          · exact Or.inl (mem_natReprChars h)

/-- Minute-layout dates contain no comma and no newline. -/
theorem formatMinute_no_comma (d : DateTime) : ',' ∉ formatMinuteChars d := by
  intro hc
  rcases mem_formatMinute hc with ⟨k, hk, he⟩ | he | he | he
  · exact digitChar_ne_sep hk (by rw [← he]; decide)
  all_goals exact absurd he (by decide)

/-- Minute-layout dates contain no newline. -/
theorem formatMinute_no_newline (d : DateTime) : '\n' ∉ formatMinuteChars d := by
  intro hc
  rcases mem_formatMinute hc with ⟨k, hk, he⟩ | he | he | he
  · exact digitChar_ne_sep hk (by rw [← he]; decide)
  all_goals exact absurd he (by decide)

/-- Fixed-precision numbers contain no comma. -/
theorem formatFixed_no_comma (p : Nat) (x : ℚ) : ',' ∉ formatFixedChars p x := by
  intro hc
  rcases mem_formatFixed hc with ⟨k, hk, he⟩ | he | he
  · exact digitChar_ne_sep hk (by rw [← he]; decide)
  all_goals exact absurd he (by decide)

/-- Fixed-precision numbers contain no newline. -/
theorem formatFixed_no_newline (p : Nat) (x : ℚ) : '\n' ∉ formatFixedChars p x := by
  intro hc
  rcases mem_formatFixed hc with ⟨k, hk, he⟩ | he | he
  · exact digitChar_ne_sep hk (by rw [← he]; decide)
  all_goals exact absurd he (by decide)

/-- A CSV data row splits on commas into exactly its six fields. -/
theorem splitRow (q : Quote) (prec : Nat) (i : Nat) :
    splitChar ',' (csvRowCore q prec i) =
      [formatMinuteChars (q.date.getD i zeroDateTime),
        formatFixedChars prec (q.open_.getD i 0),
        formatFixedChars prec (q.high.getD i 0),
        formatFixedChars prec (q.low.getD i 0),
        formatFixedChars prec (q.close.getD i 0),
        formatFixedChars prec (q.volume.getD i 0)] := by
  unfold csvRowCore
  simp only [List.cons_append, List.append_assoc]
  rw [splitChar_sep _ (formatMinute_no_comma _),
    splitChar_sep _ (formatFixed_no_comma _ _), splitChar_sep _ (formatFixed_no_comma _ _),
    splitChar_sep _ (formatFixed_no_comma _ _), splitChar_sep _ (formatFixed_no_comma _ _),
    splitChar_not_mem (formatFixed_no_comma _ _)]

/-- A CSV data row contains no newline. -/
theorem csvRowCore_no_newline (q : Quote) (prec : Nat) (i : Nat) :
    '\n' ∉ csvRowCore q prec i := by
  unfold csvRowCore
  intro hc
  simp only [List.cons_append, List.append_assoc, List.mem_append, List.mem_cons] at hc
  rcases hc with h | h | h | h | h | h | h | h | h | h | h <;>
    first
      | exact formatMinute_no_newline _ h
      | exact formatFixed_no_newline _ _ h
      | exact absurd h (by decide)

/-- Writing then re-parsing the data rows of a record recovers every bar:
    dates to minute precision, numerics exactly (they are representable at
    the serialization precision by hypothesis). -/
theorem parseRows_roundTrip (prec : Nat) (sym : String) (pr : Int) :
    ∀ (cls : List ℚ) (ds : List DateTime) (os hs ls vs : List ℚ),
      ds.length = cls.length → os.length = cls.length → hs.length = cls.length →
      ls.length = cls.length → vs.length = cls.length →
      (∀ d ∈ ds, ValidDT d) →
      (∀ x ∈ os, ∃ k : Int, x = (k : ℚ) / 10 ^ prec) →
      (∀ x ∈ hs, ∃ k : Int, x = (k : ℚ) / 10 ^ prec) →
      (∀ x ∈ ls, ∃ k : Int, x = (k : ℚ) / 10 ^ prec) →
      (∀ x ∈ cls, ∃ k : Int, x = (k : ℚ) / 10 ^ prec) →
      (∀ x ∈ vs, ∃ k : Int, x = (k : ℚ) / 10 ^ prec) →
      ((parseRowsCSV (((List.range cls.length).map
          (csvRowCore ⟨sym, pr, ds, os, hs, ls, cls, vs⟩ prec)) ++ [[]])).map Bar.date
          = ds.map truncMin ∧
        (parseRowsCSV (((List.range cls.length).map
          (csvRowCore ⟨sym, pr, ds, os, hs, ls, cls, vs⟩ prec)) ++ [[]])).map Bar.open_
          = os ∧
        (parseRowsCSV (((List.range cls.length).map
          (csvRowCore ⟨sym, pr, ds, os, hs, ls, cls, vs⟩ prec)) ++ [[]])).map Bar.high
          = hs ∧
        (parseRowsCSV (((List.range cls.length).map
          (csvRowCore ⟨sym, pr, ds, os, hs, ls, cls, vs⟩ prec)) ++ [[]])).map Bar.low
          = ls ∧
        (parseRowsCSV (((List.range cls.length).map
          (csvRowCore ⟨sym, pr, ds, os, hs, ls, cls, vs⟩ prec)) ++ [[]])).map Bar.close
          = cls ∧
        (parseRowsCSV (((List.range cls.length).map
          (csvRowCore ⟨sym, pr, ds, os, hs, ls, cls, vs⟩ prec)) ++ [[]])).map Bar.volume
          = vs)
  | [], ds, os, hs, ls, vs => by
    intro h1 h2 h3 h4 h5 _ _ _ _ _ _
    obtain rfl : ds = [] := List.length_eq_zero.mp (by simpa using h1)
    obtain rfl : os = [] := List.length_eq_zero.mp (by simpa using h2)
    obtain rfl : hs = [] := List.length_eq_zero.mp (by simpa using h3)
    obtain rfl : ls = [] := List.length_eq_zero.mp (by simpa using h4)
    obtain rfl : vs = [] := List.length_eq_zero.mp (by simpa using h5)
    exact ⟨rfl, rfl, rfl, rfl, rfl, rfl⟩
  | cl :: cls, ds, os, hs, ls, vs => by
    intro h1 h2 h3 h4 h5 hd ho hh hl hcl hv
    rcases ds with _ | ⟨d, ds⟩
    · simp at h1
    rcases os with _ | ⟨o, os⟩
    · simp at h2
    rcases hs with _ | ⟨hi, hs⟩
    · simp at h3
    rcases ls with _ | ⟨lo, ls⟩
    · simp at h4
    rcases vs with _ | ⟨v, vs⟩
    · simp at h5
    have hsucc : ∀ j : Nat,
        csvRowCore ⟨sym, pr, d :: ds, o :: os, hi :: hs, lo :: ls, cl :: cls, v :: vs⟩
            prec (j + 1) =
          csvRowCore ⟨sym, pr, ds, os, hs, ls, cls, vs⟩ prec j := by
      intro j
      simp [csvRowCore, List.getD_cons_succ]
    have hsplit0 : splitChar ','
        (csvRowCore ⟨sym, pr, d :: ds, o :: os, hi :: hs, lo :: ls, cl :: cls, v :: vs⟩
          prec 0) =
        [formatMinuteChars d, formatFixedChars prec o, formatFixedChars prec hi,
          formatFixedChars prec lo, formatFixedChars prec cl, formatFixedChars prec v] := by
      rw [splitRow]
      simp [List.getD_cons_zero]
    have hbar0 : barOfFields (formatMinuteChars d) (formatFixedChars prec o)
        (formatFixedChars prec hi) (formatFixedChars prec lo)
        (formatFixedChars prec cl) (formatFixedChars prec v) =
        ⟨truncMin d, o, hi, lo, cl, v⟩ := by
      have hparse : ∀ x ∈ [o, hi, lo, cl, v],
          goParseFloatChars (formatFixedChars prec x) = x := by
        intro x hx
        have hr : ∃ k : Int, x = (k : ℚ) / 10 ^ prec := by
          simp only [List.mem_cons, List.not_mem_nil, or_false] at hx
          rcases hx with rfl | rfl | rfl | rfl | rfl
          · exact ho x (List.mem_cons_self x os)
          · exact hh x (List.mem_cons_self x hs)
          · exact hl x (List.mem_cons_self x ls)
          · exact hcl x (List.mem_cons_self x cls)
          · exact hv x (List.mem_cons_self x vs)
        obtain ⟨k, hk⟩ := hr
        rw [hk]
        exact parseFloat_roundTrip prec k
      unfold barOfFields
      rw [parseMinute_format (hd d (List.mem_cons_self d ds))]
      rw [hparse o (by simp), hparse hi (by simp), hparse lo (by simp),
        hparse cl (by simp), hparse v (by simp)]
      rfl
    have ih := parseRows_roundTrip prec sym pr cls ds os hs ls vs
      (by simpa using h1) (by simpa using h2) (by simpa using h3) (by simpa using h4)
      (by simpa using h5)
      (fun x hx => hd x (List.mem_cons_of_mem d hx))
      (fun x hx => ho x (List.mem_cons_of_mem o hx))
      (fun x hx => hh x (List.mem_cons_of_mem hi hx))
      (fun x hx => hl x (List.mem_cons_of_mem lo hx))
      (fun x hx => hcl x (List.mem_cons_of_mem cl hx))
      (fun x hx => hv x (List.mem_cons_of_mem v hx))
    have hrows : ((List.range (cl :: cls).length).map
        (csvRowCore ⟨sym, pr, d :: ds, o :: os, hi :: hs, lo :: ls, cl :: cls, v :: vs⟩
          prec)) ++ [[]] =
        (csvRowCore ⟨sym, pr, d :: ds, o :: os, hi :: hs, lo :: ls, cl :: cls, v :: vs⟩
          prec 0) ::
          (((List.range cls.length).map
            (csvRowCore ⟨sym, pr, ds, os, hs, ls, cls, vs⟩ prec)) ++ [[]]) := by
      rw [List.length_cons, List.range_succ_eq_map, List.map_cons, List.map_map,
        List.cons_append]
      congr 2
    rw [hrows]
    simp only [parseRowsCSV, hsplit0, hbar0, List.map_cons]
    exact ⟨by rw [ih.1], by rw [ih.2.1], by rw [ih.2.2.1], by rw [ih.2.2.2.1],
      by rw [ih.2.2.2.2.1], by rw [ih.2.2.2.2.2]⟩

/-- Splitting newline-terminated rows on newlines recovers the rows plus
    the empty trailing field. -/
theorem splitChar_newline_rows : ∀ rows : List (List Char), (∀ r ∈ rows, '\n' ∉ r) →
    splitChar '\n' ((rows.map (· ++ ['\n'])).flatten) = rows ++ [[]]
  | [], _ => rfl
  | r :: rows, h => by
    rw [List.map_cons, List.flatten_cons, List.append_assoc, List.singleton_append,
      splitChar_sep _ (h r (List.mem_cons_self r rows)),
      splitChar_newline_rows rows (fun x hx => h x (List.mem_cons_of_mem r hx)),
      List.cons_append]

/-- The newline split of a generated CSV document: header, the data rows,
    and one empty trailing field. -/
theorem splitCSV (q : Quote) :
    splitChar '\n' ((Quote.CSV q).toList) =
      csvHeaderChars ::
        ((List.range q.close.length).map (csvRowCore q (getPrecision q.symbol))) ++ [[]] := by
  have hmap : (List.range q.close.length).map (csvRowChars q (getPrecision q.symbol)) =
      ((List.range q.close.length).map (csvRowCore q (getPrecision q.symbol))).map
        (· ++ ['\n']) := by
    rw [List.map_map]
    rfl
  have hrows : ∀ r ∈ (List.range q.close.length).map
      (csvRowCore q (getPrecision q.symbol)), '\n' ∉ r := by
    intro r hr
    obtain ⟨i, _, rfl⟩ := List.mem_map.mp hr
    exact csvRowCore_no_newline q _ i
  show splitChar '\n' (csvHeaderChars ++ '\n' :: _) = _
  rw [splitChar_sep _ (by decide), hmap, splitChar_newline_rows _ hrows, List.cons_append]

/-- Re-parsing the emitted RFC 3339 date strings of a record recovers the
    dates exactly. -/
theorem parseWireDates_format : ∀ ds : List DateTime, (∀ d ∈ ds, ValidDT d) →
    parseWireDates (ds.map fun d => ((⟨rfc3339Chars d⟩ : String))) = some ds
  | [], _ => rfl
  | d :: ds, h => by
    rw [List.map_cons]
    simp only [parseWireDates]
    have hs : (⟨rfc3339Chars d⟩ : String).toList = rfc3339Chars d := rfl
    rw [hs, parseRFC3339_format (h d (List.mem_cons_self d ds)),
      parseWireDates_format ds (fun x hx => h x (List.mem_cons_of_mem d hx))]
    rfl

/-- C1 (amended): the JSON round trip is lossless for symbol, dates and
    all five numeric sequences (only the never-serialized `Precision` field
    resets); the CSV round trip is *almost* lossless — it reproduces the
    symbol, every written bar's date to minute precision and its numeric
    values exactly (they are representable at the symbol's precision by
    hypothesis), but the returned record has one extra trailing zero bar,
    because the split on the writer's trailing newline yields an empty last
    row and the parser's `break` leaves that pre-allocated bar in place. -/
theorem C1_serializer_roundtrip (q : Quote)
    (hval : ∀ d ∈ q.date, ValidDT d)
    (hld : q.date.length = q.close.length) (hlo : q.open_.length = q.close.length)
    (hlh : q.high.length = q.close.length) (hll : q.low.length = q.close.length)
    (hlv : q.volume.length = q.close.length)
    (ho : ∀ x ∈ q.open_, ∃ k : Int, x = (k : ℚ) / 10 ^ getPrecision q.symbol)
    (hh : ∀ x ∈ q.high, ∃ k : Int, x = (k : ℚ) / 10 ^ getPrecision q.symbol)
    (hl : ∀ x ∈ q.low, ∃ k : Int, x = (k : ℚ) / 10 ^ getPrecision q.symbol)
    (hc : ∀ x ∈ q.close, ∃ k : Int, x = (k : ℚ) / 10 ^ getPrecision q.symbol)
    (hv : ∀ x ∈ q.volume, ∃ k : Int, x = (k : ℚ) / 10 ^ getPrecision q.symbol)
    (indent : Bool) :
    jsonRoundTrip q indent =
      some ⟨q.symbol, 0, q.date, q.open_, q.high, q.low, q.close, q.volume⟩ ∧
    newQuoteFromCSV q.symbol (Quote.CSV q) =
      ⟨q.symbol, 0, q.date.map truncMin ++ [zeroDateTime], q.open_ ++ [0], q.high ++ [0],
        q.low ++ [0], q.close ++ [0], q.volume ++ [0]⟩ := by
  constructor
  · unfold jsonRoundTrip newQuoteFromJSON Quote.JSONWire
    simp only [parseWireDates_format q.date hval]
    rfl
  · obtain ⟨sym, pr, ds, os, hgs, lws, cls, vls⟩ := q
    simp only at hval hld hlo hlh hll hlv ho hh hl hc hv
    have hrt := parseRows_roundTrip (getPrecision sym) sym pr cls ds os hgs lws vls
      hld hlo hlh hll hlv hval ho hh hl hc hv
    have hQ : newQuoteFromCSV sym
        (Quote.CSV ⟨sym, pr, ds, os, hgs, lws, cls, vls⟩) =
        quoteOfBars sym
          ((splitChar '\n' (Quote.CSV ⟨sym, pr, ds, os, hgs, lws, cls, vls⟩).toList).length - 1)
          (parseRowsCSV
            ((splitChar '\n'
              (Quote.CSV ⟨sym, pr, ds, os, hgs, lws, cls, vls⟩).toList).drop 1)) := rfl
    rw [hQ, splitCSV]
    have hbars_len : (parseRowsCSV (((List.range cls.length).map
        (csvRowCore ⟨sym, pr, ds, os, hgs, lws, cls, vls⟩ (getPrecision sym))) ++
          [[]])).length = cls.length := by
      have := congrArg List.length hrt.2.2.2.2.1
      simpa using this
    have hdrop : (csvHeaderChars ::
        ((List.range cls.length).map
          (csvRowCore ⟨sym, pr, ds, os, hgs, lws, cls, vls⟩ (getPrecision sym))) ++
        [[]]).drop 1 =
        ((List.range cls.length).map
          (csvRowCore ⟨sym, pr, ds, os, hgs, lws, cls, vls⟩ (getPrecision sym))) ++ [[]] :=
      rfl
    have hlen : (csvHeaderChars ::
        ((List.range cls.length).map
          (csvRowCore ⟨sym, pr, ds, os, hgs, lws, cls, vls⟩ (getPrecision sym))) ++
        [[]]).length - 1 = cls.length + 1 := by
      simp
    rw [hdrop, hlen]
    have hone : cls.length + 1 - (parseRowsCSV (((List.range cls.length).map
        (csvRowCore ⟨sym, pr, ds, os, hgs, lws, cls, vls⟩ (getPrecision sym))) ++
          [[]])).length = 1 := by
      rw [hbars_len]
      omega
    simp only [quoteOfBars, Quote.mk.injEq, hone, List.replicate_one]
    exact ⟨trivial, trivial, by rw [hrt.1], by rw [hrt.2.1], by rw [hrt.2.2.1],
      by rw [hrt.2.2.2.1], by rw [hrt.2.2.2.2.1], by rw [hrt.2.2.2.2.2]⟩

/-- A one-bar record whose open value 0.001 is not representable at the
    2-decimal precision its symbol selects. -/
def qC1 : Quote :=
  ⟨"AAPL", 0, [⟨2021, 1, 1, 0, 0, 0⟩], [mkRat 1 1000], [2], [mkRat 1 2], [mkRat 3 2], [100]⟩

/-- C1 counterexample: the CSV round trip is not lossless as claimed — for
    a one-bar `AAPL` record with open 0.001, re-parsing the writer's output
    changes the bar count (an extra zero bar appears) and the open sequence
    (0.001 was written as `0.00`). -/
theorem C1_roundtrip_counterexample :
    (newQuoteFromCSV "AAPL" (Quote.CSV qC1)).date.length ≠ qC1.date.length ∧
      (newQuoteFromCSV "AAPL" (Quote.CSV qC1)).open_ ≠ qC1.open_ := by
  set_option maxRecDepth 8192 in decide

/-- A one-bar `BTC-USD` record with values representable at 8 decimals. -/
def qW1 : Quote :=
  ⟨"BTC-USD", 0, [⟨2021, 1, 1, 0, 0, 0⟩], [1], [2], [mkRat 1 2], [mkRat 3 2], [100]⟩

/-- C1 witness: the amended round trip at a concrete record. -/
theorem C1_serializer_roundtrip_witness :
    jsonRoundTrip qW1 false =
      some ⟨qW1.symbol, 0, qW1.date, qW1.open_, qW1.high, qW1.low, qW1.close, qW1.volume⟩ ∧
    newQuoteFromCSV qW1.symbol (Quote.CSV qW1) =
      ⟨qW1.symbol, 0, qW1.date.map truncMin ++ [zeroDateTime], qW1.open_ ++ [0],
        qW1.high ++ [0], qW1.low ++ [0], qW1.close ++ [0], qW1.volume ++ [0]⟩ :=
  C1_serializer_roundtrip qW1 (by decide) rfl rfl rfl rfl rfl
    (by
      intro x hx
      simp only [qW1, List.mem_singleton] at hx
      subst hx
      simp only [show getPrecision qW1.symbol = 8 from by decide]
      exact ⟨100000000, by norm_num⟩)
    (by
      intro x hx
      simp only [qW1, List.mem_singleton] at hx
      subst hx
      simp only [show getPrecision qW1.symbol = 8 from by decide]
      exact ⟨200000000, by norm_num⟩)
    (by
      intro x hx
      simp only [qW1, List.mem_singleton] at hx
      subst hx
      simp only [show getPrecision qW1.symbol = 8 from by decide]
      exact ⟨50000000, by rw [Rat.mkRat_eq_div]; norm_num⟩)
    (by
      intro x hx
      simp only [qW1, List.mem_singleton] at hx
      subst hx
      simp only [show getPrecision qW1.symbol = 8 from by decide]
      exact ⟨150000000, by rw [Rat.mkRat_eq_div]; norm_num⟩)
    (by
      intro x hx
      simp only [qW1, List.mem_singleton] at hx
      subst hx
      simp only [show getPrecision qW1.symbol = 8 from by decide]
      exact ⟨10000000000, by norm_num⟩)
    false

example : unixMillis ⟨2021, 1, 1, 0, 0, 0⟩ = 1609459200000 := by decide
example : Quote.Highstock ⟨"AAPL", 0, [⟨2021, 1, 1, 0, 0, 0⟩], [1], [2], [mkRat 1 2],
    [mkRat 3 2], [100]⟩ =
  "[\n[1609459200000,1.00,2.00,0.50,1.50,100.00]\n]\n" := by decide
example : Quote.Amibroker ⟨"AAPL", 0, [⟨2021, 1, 1, 0, 0, 0⟩], [1], [2], [mkRat 1 2],
    [mkRat 3 2], [100]⟩ =
  "date,time,open,high,low,close,volume\n2021-01-01,00:00,1.00,2.00,0.50,1.50,100.00\n" := by
  decide
example : Quote.Highstock ⟨"BTC-USD", 0, [⟨2021, 1, 1, 0, 0, 0⟩, ⟨2021, 1, 2, 0, 0, 0⟩],
    [1, 1], [2, 2], [mkRat 1 2, 1], [mkRat 3 2, 1], [100, 1]⟩ =
  "[\n[1609459200000,1.00000000,2.00000000,0.50000000,1.50000000,100.00000000],\n[1609545600000,1.00000000,2.00000000,1.00000000,1.00000000,1.00000000]\n]\n" := by
  set_option maxRecDepth 8192 in decide

/-- The symbol-derived precision is positive (2 or 8). -/
theorem getPrecision_pos (symbol : String) : 0 < getPrecision symbol := by
  unfold getPrecision
  split <;> norm_num

/-- Every number a serializer renders at positive precision `p` carries
    exactly `p` digits after its (unique) decimal point. -/
theorem formatFixed_fracDigits (p : Nat) (hp : 0 < p) (x : ℚ) :
    ∃ a b : List Char, formatFixedChars p x = a ++ '.' :: b ∧ '.' ∉ a ∧
      b.length = p ∧ b.all isDigitCh = true := by
  have hp' : p ≠ 0 := Nat.pos_iff_ne_zero.mp hp
  refine ⟨(if x.num < 0 then ['-'] else []) ++
      natReprChars ((roundHE (scalePow10 p (qabs x))).toNat / 10 ^ p),
    List.replicate
        (p - (natReprChars ((roundHE (scalePow10 p (qabs x))).toNat % 10 ^ p)).length) '0' ++
      natReprChars ((roundHE (scalePow10 p (qabs x))).toNat % 10 ^ p),
    ?_, ?_, ?_, ?_⟩
  · simp only [formatFixedChars, fixedBodyChars, if_neg hp', List.append_assoc]
  · intro hc
    rcases List.mem_append.mp hc with h | h
    · split at h
      · simp only [List.mem_cons, List.not_mem_nil, or_false] at h
        exact absurd h (by decide)
      · exact absurd h (List.not_mem_nil _)
    · exact natReprChars_no_sep (by decide) h
  · have hmod : (roundHE (scalePow10 p (qabs x))).toNat % 10 ^ p < 10 ^ p :=
      Nat.mod_lt _ (Nat.pos_pow_of_pos p (by norm_num))
    have := natReprChars_len_le hp hmod
    simp only [List.length_append, List.length_replicate]
    omega
  · simp only [List.all_append, Bool.and_eq_true]
    refine ⟨?_, natReprChars_all_digits _⟩
    rw [List.all_eq_true]
    intro c hc
    rw [List.eq_of_mem_replicate hc]
    rfl

/-- C9: for every Record, the numeric display precision of the CSV,
    Highstock and Amibroker serializers is computed at serialization time
    from the symbol string alone — each serializer ignores the stored
    `Precision` field, the derived precision follows the 8-if-BTC/ETH/USD
    else-2 rule for every symbol, and every rendered numeric field carries
    exactly that many decimal places.  Concretely, one-bar records for
    `BTC-USD` and `AAPL` serialize with 8 resp. 2 decimal places. -/
theorem C9_symbol_derived_precision :
    (∀ symbol : String, getPrecision symbol =
      if goContainsSub (goToUpper symbol) "BTC" || goContainsSub (goToUpper symbol) "ETH" ||
          goContainsSub (goToUpper symbol) "USD" then 8 else 2) ∧
    (∀ (q : Quote) (pr : Int),
      Quote.CSV ⟨q.symbol, pr, q.date, q.open_, q.high, q.low, q.close, q.volume⟩ =
          Quote.CSV q ∧
        Quote.Highstock ⟨q.symbol, pr, q.date, q.open_, q.high, q.low, q.close, q.volume⟩ =
          Quote.Highstock q ∧
        Quote.Amibroker ⟨q.symbol, pr, q.date, q.open_, q.high, q.low, q.close, q.volume⟩ =
          Quote.Amibroker q) ∧
    (∀ (q : Quote) (x : ℚ), ∃ a b : List Char,
      formatFixedChars (getPrecision q.symbol) x = a ++ '.' :: b ∧ '.' ∉ a ∧
        b.length = getPrecision q.symbol ∧ b.all isDigitCh = true) ∧
    getPrecision "BTC-USD" = 8 ∧ getPrecision "btc-usd" = 8 ∧ getPrecision "AAPL" = 2 ∧
    Quote.CSV ⟨"BTC-USD", 0, [⟨2021, 1, 1, 0, 0, 0⟩], [1], [2], [mkRat 1 2],
        [mkRat 3 2], [100]⟩ =
      "datetime,open,high,low,close,volume\n2021-01-01 00:00,1.00000000,2.00000000,0.50000000,1.50000000,100.00000000\n" ∧
    Quote.CSV ⟨"AAPL", 0, [⟨2021, 1, 1, 0, 0, 0⟩], [1], [2], [mkRat 1 2],
        [mkRat 3 2], [100]⟩ =
      "datetime,open,high,low,close,volume\n2021-01-01 00:00,1.00,2.00,0.50,1.50,100.00\n" ∧
    Quote.Highstock ⟨"BTC-USD", 0, [⟨2021, 1, 1, 0, 0, 0⟩], [1], [2], [mkRat 1 2],
        [mkRat 3 2], [100]⟩ =
      "[\n[1609459200000,1.00000000,2.00000000,0.50000000,1.50000000,100.00000000]\n]\n" ∧
    Quote.Highstock ⟨"AAPL", 0, [⟨2021, 1, 1, 0, 0, 0⟩], [1], [2], [mkRat 1 2],
        [mkRat 3 2], [100]⟩ =
      "[\n[1609459200000,1.00,2.00,0.50,1.50,100.00]\n]\n" ∧
    Quote.Amibroker ⟨"BTC-USD", 0, [⟨2021, 1, 1, 0, 0, 0⟩], [1], [2], [mkRat 1 2],
        [mkRat 3 2], [100]⟩ =
      "date,time,open,high,low,close,volume\n2021-01-01,00:00,1.00000000,2.00000000,0.50000000,1.50000000,100.00000000\n" ∧
    Quote.Amibroker ⟨"AAPL", 0, [⟨2021, 1, 1, 0, 0, 0⟩], [1], [2], [mkRat 1 2],
        [mkRat 3 2], [100]⟩ =
      "date,time,open,high,low,close,volume\n2021-01-01,00:00,1.00,2.00,0.50,1.50,100.00\n" := by
  refine ⟨fun symbol => rfl, ?_, ?_, ?_⟩
  · intro q pr
    obtain ⟨sym, pr0, ds, os, hs, ls, cs, vs⟩ := q
    exact ⟨rfl, rfl, rfl⟩
  · intro q x
    exact formatFixed_fracDigits (getPrecision q.symbol) (getPrecision_pos q.symbol) x
  · decide
